import Mathlib

/-!
Verification of the dbt-decodable core: the Flink-SQL type-name parser, the
canonical (synonym-aware) equality model, the schema field/collection models,
and the reconciliation procedure.

Python strings are modelled as `List Char`; Python `int` values occurring here
are non-negative (regex `\d+` captures), modelled as `Nat`.  `re` patterns used
by the source are all of a restricted shape (literal text, `\d+` groups, and
greedy `.*` groups) and are modelled exactly by the string functions below;
`.` is taken to match every character except `'\n'` (Python default, no
re.DOTALL), and `\d` is modelled as an ASCII digit.
-/

namespace DbtDecodable

/-- A Python string, as its character sequence. -/
abbrev Chars := List Char

/-- Characters of a Lean string literal, used to transcribe Python literals. -/
def lit (s : String) : Chars := s.data

/-- Strip the literal `pat` from the front of `s`; `some rest` on success.
Models a regex literal at the start of an anchored `fullmatch`. -/
def peel : Chars → Chars → Option Chars
  | [], s => some s
  | _ :: _, [] => none
  | p :: ps, c :: cs => if c = p then peel ps cs else none

/-- Strip the literal `pat` from the end of `s`; `some front` on success.
Models a regex literal at the end of an anchored `fullmatch`. -/
def peelEnd (pat s : Chars) : Option Chars :=
  (peel pat.reverse s.reverse).map List.reverse

/-- Split `m` at the RIGHTMOST occurrence of the two-character separator
`", "`, as the greedy group in `re.fullmatch(r"MAP<(.*), (.*)>", ...)` does. -/
def lastSplit : Chars → Option (Chars × Chars)
  | [] => none
  | c :: rest =>
    match lastSplit rest with
    | some (k, v) => some (c :: k, v)
    | none =>
      match rest with
      | d :: v => if c = ',' then if d = ' ' then some ([], v) else none else none
      | [] => none

/-- No newline: a greedy `.*` group (no DOTALL) can only match such text. -/
def noNl (s : Chars) : Bool := s.all (fun c => c ≠ '\n')

/-- The decimal digit characters, as Python renders a digit of `str(int)`. -/
def digitChar : Nat → Char
  | 0 => '0'
  | 1 => '1'
  | 2 => '2'
  | 3 => '3'
  | 4 => '4'
  | 5 => '5'
  | 6 => '6'
  | 7 => '7'
  | 8 => '8'
  | _ => '9'

/-- Digit-accumulating renderer; the fuel argument (first) only bounds the
recursion depth and is irrelevant once at least the digit count (fuel `n`
always suffices), keeping the definition kernel-reducible. -/
def natStrGo : Nat → Nat → Chars → Chars
  | 0, n, acc => digitChar n :: acc
  | fuel + 1, n, acc =>
    if n < 10 then digitChar n :: acc
    else natStrGo fuel (n / 10) (digitChar (n % 10) :: acc)

/-- Python's `str` of a non-negative `int`: standard decimal, no sign,
no leading zeros. -/
def natStr (n : Nat) : Chars := natStrGo n n []

/-- Python's `int` of a digit string (the value of a `\d+` capture). -/
def strToNat (s : Chars) : Nat :=
  s.foldl (fun acc c => acc * 10 + (c.toNat - 48)) 0

/-- `some n` iff the whole string is a nonempty run of digits (`\d+`). -/
def readNum (s : Chars) : Option Nat :=
  if !s.isEmpty && s.all Char.isDigit then some (strToNat s) else none

/-- The parsed type AST: one constructor per concrete `FieldType` subclass of
`decodable/client/types.py` that can carry data.  `Row` is omitted: its
`from_str` is a constant `None` and nothing in the repository constructs it.
The `is_synonym` dataclass flag is omitted: it only suppresses population of
the mutable `synonyms` list, which is modelled by the pure function
`synonyms` below.  `TimestampLocal`'s `timezone` field is fixed at its
default `True` (parsing never produces another value). -/
inductive FieldType where
  | NotNull (inner : FieldType)
  | Char (length : Nat)
  | Varchar (length : Nat)
  | String (length : Nat)
  | Binary (length : Nat)
  | Varbinary (length : Nat)
  | Bytes (length : Nat)
  | Decimal (precision scale : Nat)
  | Dec (precision scale : Nat)
  | Numeric (precision scale : Nat)
  | TinyInt
  | SmallInt
  | Int
  | BigInt
  | Float
  | Double
  | Date
  | Time (precision : Nat)
  | Timestamp (precision : Nat) (timezone : Bool)
  | TimestampLocal (precision : Nat)
  | Array (type : FieldType)
  | TArray (type : FieldType)
  | Map (key value : FieldType)
  | PrimaryKey (inner : FieldType)
  | Boolean
  | Interval
  | Multiset
  deriving DecidableEq, Repr

/-- `String.length` / `Bytes.length` default: 2147483647. -/
def maxLen : Nat := 2147483647

/-- `repr` of each node (`__repr__` in `types.py`).  This is also the string
Python's `__hash__` hashes (`hash(repr(self))`). -/
def rep : FieldType → Chars
  | .NotNull t => rep t ++ lit " NOT NULL"
  | .Char n => lit "CHAR(" ++ natStr n ++ lit ")"
  | .Varchar n => lit "VARCHAR(" ++ natStr n ++ lit ")"
  | .String _ => lit "STRING"
  | .Binary n => lit "BINARY(" ++ natStr n ++ lit ")"
  | .Varbinary n => lit "VARBINARY(" ++ natStr n ++ lit ")"
  | .Bytes _ => lit "BYTES"
  | .Decimal p s => lit "DECIMAL(" ++ natStr p ++ lit ", " ++ natStr s ++ lit ")"
  | .Dec p s => lit "DEC(" ++ natStr p ++ lit ", " ++ natStr s ++ lit ")"
  | .Numeric p s => lit "NUMERIC(" ++ natStr p ++ lit ", " ++ natStr s ++ lit ")"
  | .TinyInt => lit "TINYINT"
  | .SmallInt => lit "SMALLINT"
  | .Int => lit "INT"
  | .BigInt => lit "BIGINT"
  | .Float => lit "FLOAT"
  | .Double => lit "DOUBLE"
  | .Date => lit "DATE"
  | .Time p => lit "TIME(" ++ natStr p ++ lit ")"
  | .Timestamp p tz =>
      lit "TIMESTAMP(" ++ natStr p ++ lit ")" ++
        (if tz then lit " WITH TIME ZONE" else lit " WITHOUT TIME ZONE")
  | .TimestampLocal p => lit "TIMESTAMP_LTZ(" ++ natStr p ++ lit ")"
  | .Array t => lit "ARRAY<" ++ rep t ++ lit ">"
  | .TArray t => rep t ++ lit " ARRAY"
  | .Map k v => lit "MAP<" ++ rep k ++ lit ", " ++ rep v ++ lit ">"
  | .PrimaryKey t => rep t ++ lit " PRIMARY KEY"
  | .Boolean => lit "BOOLEAN"
  | .Interval => lit "INTERVAL"
  | .Multiset => lit "MULTISET"

/-- The synonyms each freshly constructed (non-synonym-flagged) node registers
in `__post_init__`, as a pure function (the registered objects themselves
carry an empty synonym list). -/
def synonyms : FieldType → List FieldType
  | .Varchar n => if n = maxLen then [.String maxLen] else []
  | .String n => [.Varchar n]
  | .Varbinary n => if n = maxLen then [.Bytes maxLen] else []
  | .Bytes n => [.Varbinary n]
  | .Decimal p s => [.Dec p s, .Numeric p s]
  | .Dec p s => [.Decimal p s, .Numeric p s]
  | .Numeric p s => [.Dec p s, .Decimal p s]
  | .Float => [.Double]
  | .Double => [.Float]
  | .Timestamp p tz => if tz then [.TimestampLocal p] else []
  | .TimestampLocal p => [.Timestamp p true]
  | _ => []

/-- Python `b == e` where `e` is a synonym-flagged object (empty synonym
list), dispatched on `b`'s class as `list.__contains__` does: `NotNull` and
compound nodes use their own `__eq__` (class check fails), every other node
uses `FieldType.__eq__` (membership of `e` in `b`'s synonyms — itself decided
by `repr` since both are synonym objects — then `repr` comparison). -/
def pyEqMember (b e : FieldType) : Bool :=
  match b with
  | .NotNull _ => false
  | .Array _ => false
  | .TArray _ => false
  | .Map _ _ => false
  | _ => ((synonyms b).map rep).contains (rep e) || rep b == rep e

/-- Python `a == b` on `FieldType` values (`__eq__` of `types.py`):
`NotNull` compares inner types; compound nodes compare container kind and
`internal_types` element-wise; every other node first tests membership of `b`
in `a`'s synonym list, then falls back to `repr` equality. -/
def pyEq : FieldType → FieldType → Bool
  | .NotNull a, b =>
    match b with
    | .NotNull b' => pyEq a b'
    | _ => false
  | .Array a, b =>
    match b with
    | .Array b' => pyEq a b'
    | .TArray b' => pyEq a b'
    | _ => false
  | .TArray a, b =>
    match b with
    | .Array b' => pyEq a b'
    | .TArray b' => pyEq a b'
    | _ => false
  | .Map k v, b =>
    match b with
    | .Map k' v' => pyEq k k' && pyEq v v'
    | _ => false
  | a, b => (synonyms a).any (fun e => pyEqMember b e) || rep a == rep b

/-! ### The type-name parser (`from_str` methods of `types.py`)

Each concrete class's `from_str` is one matcher.  The recursive rules
(`NotNull`, `Array`, `TArray`, `Map`) take the recursion as a parameter and
return `Option (Option FieldType)`: the outer layer is fuel exhaustion
(`none` = the modelled recursion was cut off), the inner layer is the
source's `Optional[FieldType]` ("no match" vs a node).  Fuel `s.length + 1`
is proved sufficient below (`fromStrF_isSome`), which is the termination of
the Python recursion. -/

/-- `re.fullmatch(r"NAME\((\d+)\)", s)`: the literal name, `(`, a nonempty
digit run, `)`. -/
def parenNumM (name : Chars) (mk : Nat → FieldType) (s : Chars) :
    Option FieldType :=
  match peel (name ++ ['(']) s with
  | none => none
  | some r =>
    match peelEnd [')'] r with
    | none => none
    | some body => (readNum body).map mk

/-- An exact-keyword rule, e.g. `re.fullmatch(r"STRING", s)`. -/
def kwM (kw : Chars) (t : FieldType) (s : Chars) : Option FieldType :=
  match peel kw s with
  | some [] => some t
  | _ => none

/-- The parameter part of `re.fullmatch(r"NAME(\((\d+)(, (\d+))?\))?", s)`
after the name: empty (defaults 10, 0), `(p)` (scale defaults 0), or
`(p, s)`. -/
def decParams (s : Chars) : Option (Nat × Nat) :=
  if s.isEmpty then some (10, 0)
  else
    match peel ['('] s with
    | none => none
    | some r =>
      match peelEnd [')'] r with
      | none => none
      | some body =>
        let ds := body.takeWhile Char.isDigit
        let rest := body.dropWhile Char.isDigit
        if ds.isEmpty then none
        else if rest.isEmpty then some (strToNat ds, 0)
        else
          match peel [',', ' '] rest with
          | none => none
          | some ds2 =>
            if !ds2.isEmpty && ds2.all Char.isDigit then
              some (strToNat ds, strToNat ds2)
            else none

/-- A `DECIMAL`/`DEC`/`NUMERIC` rule: the name then optional parameters. -/
def exactNumM (name : Chars) (mk : Nat → Nat → FieldType) (s : Chars) :
    Option FieldType :=
  match peel name s with
  | none => none
  | some r => (decParams r).map (fun pq => mk pq.1 pq.2)

/-- `Timestamp.from_str`:
`re.fullmatch(r"TIMESTAMP\((\d+)\)( (WITH|WITHOUT) TIME ZONE)?", s)`;
absence of the zone clause defaults the flag to `False`. -/
def timestampM (s : Chars) : Option FieldType :=
  match peel (lit "TIMESTAMP(") s with
  | none => none
  | some r =>
    let ds := r.takeWhile Char.isDigit
    let rest := r.dropWhile Char.isDigit
    if ds.isEmpty then none
    else
      match peel [')'] rest with
      | none => none
      | some tail =>
        if tail.isEmpty then some (.Timestamp (strToNat ds) false)
        else if tail = lit " WITH TIME ZONE" then some (.Timestamp (strToNat ds) true)
        else if tail = lit " WITHOUT TIME ZONE" then some (.Timestamp (strToNat ds) false)
        else none

/-- `StringType.from_str`: `Char`, then `Varchar`, then `String`. -/
def stringTypeM (s : Chars) : Option FieldType :=
  (parenNumM (lit "CHAR") .Char s).orElse fun _ =>
  (parenNumM (lit "VARCHAR") .Varchar s).orElse fun _ =>
  kwM (lit "STRING") (.String maxLen) s

/-- `BinaryType.from_str`: `Binary`, then `Varbinary`, then `Bytes`. -/
def binaryTypeM (s : Chars) : Option FieldType :=
  (parenNumM (lit "BINARY") .Binary s).orElse fun _ =>
  (parenNumM (lit "VARBINARY") .Varbinary s).orElse fun _ =>
  kwM (lit "BYTES") (.Bytes maxLen) s

/-- `NumericType.from_str`: the exact-numeric family (`Decimal`, `Dec`,
`Numeric`), then `TinyInt`, `SmallInt`, `Int`, `BigInt`, `Float`, `Double`. -/
def numericTypeM (s : Chars) : Option FieldType :=
  (exactNumM (lit "DECIMAL") .Decimal s).orElse fun _ =>
  (exactNumM (lit "DEC") .Dec s).orElse fun _ =>
  (exactNumM (lit "NUMERIC") .Numeric s).orElse fun _ =>
  (kwM (lit "TINYINT") .TinyInt s).orElse fun _ =>
  (kwM (lit "SMALLINT") .SmallInt s).orElse fun _ =>
  (kwM (lit "INT") .Int s).orElse fun _ =>
  (kwM (lit "BIGINT") .BigInt s).orElse fun _ =>
  (kwM (lit "FLOAT") .Float s).orElse fun _ =>
  kwM (lit "DOUBLE") .Double s

/-- `DateTimeType.from_str`: `Date`, `Time`, then the timestamp family
(`Timestamp`, `TimestampLocal`). -/
def dateTimeTypeM (s : Chars) : Option FieldType :=
  (kwM (lit "DATE") .Date s).orElse fun _ =>
  (parenNumM (lit "TIME") .Time s).orElse fun _ =>
  (timestampM s).orElse fun _ =>
  parenNumM (lit "TIMESTAMP_LTZ") .TimestampLocal s

/-- Chain two fuel-aware candidates: fuel exhaustion aborts, a match wins,
"no match" falls through to the next candidate. -/
def seqP (x : Option (Option FieldType))
    (k : Unit → Option (Option FieldType)) : Option (Option FieldType) :=
  match x with
  | none => none
  | some (some t) => some (some t)
  | some none => k ()

/-- `NotNull.from_str`: `re.fullmatch(r"(?P<inner>.*) NOT NULL", s)`, then
the inner text is parsed recursively; an unparseable inner text is "no
match" (the dispatch moves on). -/
def notNullF (recur : Chars → Option (Option FieldType)) (s : Chars) :
    Option (Option FieldType) :=
  match peelEnd (lit " NOT NULL") s with
  | none => some none
  | some inner =>
    if noNl inner then
      match recur inner with
      | none => none
      | some none => some none
      | some (some t) => some (some (.NotNull t))
    else some none

/-- `Array.from_str`: `re.fullmatch(r"ARRAY<(?P<inner>.*)>", s)`. -/
def arrayF (recur : Chars → Option (Option FieldType)) (s : Chars) :
    Option (Option FieldType) :=
  match peel (lit "ARRAY<") s with
  | none => some none
  | some r =>
    match peelEnd ['>'] r with
    | none => some none
    | some inner =>
      if noNl inner then
        match recur inner with
        | none => none
        | some none => some none
        | some (some t) => some (some (.Array t))
      else some none

/-- `TArray.from_str`: `re.fullmatch(r"(?P<inner>.*) ARRAY", s)`. -/
def tarrayF (recur : Chars → Option (Option FieldType)) (s : Chars) :
    Option (Option FieldType) :=
  match peelEnd (lit " ARRAY") s with
  | none => some none
  | some inner =>
    if noNl inner then
      match recur inner with
      | none => none
      | some none => some none
      | some (some t) => some (some (.TArray t))
    else some none

/-- `Map.from_str`: `re.fullmatch(r"MAP<(?P<key>.*), (?P<value>.*)>", s)`;
the greedy key group makes the split the RIGHTMOST `", "`; both parts are
parsed recursively and both must parse. -/
def mapF (recur : Chars → Option (Option FieldType)) (s : Chars) :
    Option (Option FieldType) :=
  match peel (lit "MAP<") s with
  | none => some none
  | some r =>
    match peelEnd ['>'] r with
    | none => some none
    | some middle =>
      if noNl middle then
        match lastSplit middle with
        | none => some none
        | some (k, v) =>
          match recur k, recur v with
          | none, _ => none
          | _, none => none
          | some none, some _ => some none
          | some (some _), some none => some none
          | some (some kt), some (some vt) => some (some (.Map kt vt))
      else some none

/-- `CompoundType.from_str`: `ArrayType` (`Array` then `TArray`), `Map`,
then `Row` — whose `from_str` is a constant `None`. -/
def compoundF (recur : Chars → Option (Option FieldType)) (s : Chars) :
    Option (Option FieldType) :=
  seqP (arrayF recur s) fun _ =>
  seqP (tarrayF recur s) fun _ =>
  mapF recur s

/-- `FieldType.from_str`'s candidate loop, with explicit fuel bounding the
recursion depth: `NotNull`, string family, binary family, numeric family,
datetime family, compound family, `Boolean`, `Interval`, `Multiset`. -/
def fromStrF : Nat → Chars → Option (Option FieldType)
  | 0, _ => none
  | fuel + 1, s =>
    seqP (notNullF (fromStrF fuel) s) fun _ =>
    seqP (some (stringTypeM s)) fun _ =>
    seqP (some (binaryTypeM s)) fun _ =>
    seqP (some (numericTypeM s)) fun _ =>
    seqP (some (dateTimeTypeM s)) fun _ =>
    seqP (compoundF (fromStrF fuel) s) fun _ =>
    seqP (some (kwM (lit "BOOLEAN") .Boolean s)) fun _ =>
    seqP (some (kwM (lit "INTERVAL") .Interval s)) fun _ =>
    some (kwM (lit "MULTISET") .Multiset s)

/-- `FieldType.from_str`: every recursive call is on a strictly shorter
string, so fuel `s.length + 1` never runs out (`fromStrF_isSome` below). -/
def fromStr (s : Chars) : Option FieldType :=
  (fromStrF (s.length + 1) s).getD none

/-- The string `FieldType.__hash__` feeds to Python's `hash`: `repr(self)`.
Two nodes get equal Python hashes exactly when `hash` agrees on these
strings; distinct strings hash differently under Python's (seeded) string
hash for the nodes at issue here. -/
def hashInput (t : FieldType) : Chars := rep t

/-! ### Canonical grammar nodes -/

/-- Nodes whose rendering is the canonical form of a supported grammar rule:
everything except `PrimaryKey` (no grammar rule renders `X PRIMARY KEY`).
For `Map`, `(lastSplit (rep v)).isNone` records that the rendered VALUE text
contains no `", "` — when it does, the rightmost-split regex of
`Map.from_str` cuts the text at the wrong place and parsing fails
(see `c4_counterexample`). -/
def goodNode : FieldType → Bool
  | .NotNull x => goodNode x
  | .Array x => goodNode x
  | .TArray x => goodNode x
  | .Map k v => goodNode k && goodNode v && (lastSplit (rep v)).isNone
  | .PrimaryKey _ => false
  | _ => true

/-! ### Client-side schema fields and `DecodableAdapter.has_changed`
(`dbt/adapters/decodable/impl.py`) -/

/-- Modelled from the spec: the `SchemaField` dataclass that `impl.py`
imports from `decodable.client.client` is not among the sources (only its
callers are); per §3/§4.3 it is a `(name, type)` record whose equality
compares the name and the type, the latter canonically ("after type
canonicalization", i.e. `FieldType.__eq__`). -/
structure SchemaField where
  name : Chars
  type : FieldType
  deriving DecidableEq

/-- Dataclass equality of the client-side `SchemaField`. -/
def sfEq (a b : SchemaField) : Bool := a.name == b.name && pyEq a.type b.type

/-- Python list `==` on schema-field lists: same length and pairwise
element equality. -/
def listFieldEq : List SchemaField → List SchemaField → Bool
  | [], [] => true
  | a :: as, b :: bs => sfEq a b && listFieldEq as bs
  | _, _ => false

/-- One entry of a JSON `schema` array, as `_schema_from_json` reads it:
its `name` and `type` values. -/
structure JsonField where
  name : Chars
  type : Chars
  deriving DecidableEq

/-- `DecodableAdapter._schema_from_json`: parse each entry's type text with
`FieldType.from_str`; the first unrecognized text raises a compiler error
(modelled as `Except.error` carrying the offending text). -/
def schema_from_json : List JsonField → Except Chars (List SchemaField)
  | [] => .ok []
  | f :: fs =>
    match fromStr f.type with
    | none => .error f.type
    | some t =>
      match schema_from_json fs with
      | .error e => .error e
      | .ok rest => .ok (⟨f.name, t⟩ :: rest)

/-- `DecodableAdapter._wrap_as_pipeline`: `f"INSERT INTO {sink} {sql}"`. -/
def wrap_as_pipeline (sink sql : Chars) : Chars :=
  lit "INSERT INTO " ++ sink ++ (' ' :: sql)

/-- The remote pipeline state `has_changed` consults (`pipe_info["sql"]`). -/
structure PipeInfo where
  sql : Chars
  deriving DecidableEq

/-- The remote stream state `has_changed` consults
(`stream_info["watermark"]`, `stream_info["schema"]`). -/
structure StreamInfo where
  watermark : Option Chars
  schema : List JsonField
  deriving DecidableEq

/-- `DecodableAdapter.has_changed`, with the remote interactions as inputs:
`localFields` is `get_stream_from_sql(new_pipe_sql)["schema"]`, `pipe` is
the pipeline found under the relation name (`None` when absent), `stream`
likewise.  Exactly the source's order: derive the local schema (fail-fast
on a bad type), return `True` when the pipeline or stream is missing,
compare the wrapped SQL verbatim, then the watermark, then parse the remote
schema and compare field lists. -/
def has_changed (sql relationName : Chars) (localFields : List JsonField)
    (pipe : Option PipeInfo) (stream : Option StreamInfo)
    (watermark : Option Chars) : Except Chars Bool :=
  let newPipeSql := wrap_as_pipeline relationName sql
  match schema_from_json localFields with
  | .error e => .error e
  | .ok schema =>
    match pipe with
    | none => .ok true
    | some pipeInfo =>
      match stream with
      | none => .ok true
      | some streamInfo =>
        if pipeInfo.sql ≠ newPipeSql then .ok true
        else if streamInfo.watermark ≠ watermark then .ok true
        else
          match schema_from_json streamInfo.schema with
          | .error e => .error e
          | .ok existing =>
            if ¬ listFieldEq existing schema then .ok true else .ok false

/-- Following the spec's words (§4.4, the "schema-model equality"): compare
schemas by their serialized-text form, a field's type appearing as its
rendered text.  Used only to test the claim that `has_changed` compares
schemas this way. -/
def serializedFieldsEq (a b : List SchemaField) : Bool :=
  (a.map fun f => (f.name, rep f.type)) == (b.map fun f => (f.name, rep f.type))

/-! ### `decodable/client/schema.py`: the v2 field and schema models -/

/-- The `SchemaField` subclasses of `schema.py`
(`kind` ∈ physical/metadata/computed). -/
inductive SchemaFieldV2 where
  | physical (name : Chars) (type : FieldType)
  | metadata (name : Chars) (key : Chars) (type : FieldType)
  | computed (name : Chars) (expression : Chars)
  deriving DecidableEq

/-- Dataclass equality of `schema.py` fields: same class, equal dataclass
field values; `FieldType` values compare by their `__eq__`. -/
def fieldV2Eq : SchemaFieldV2 → SchemaFieldV2 → Bool
  | .physical n t, .physical n' t' => n == n' && pyEq t t'
  | .metadata n k t, .metadata n' k' t' => n == n' && k == k' && pyEq t t'
  | .computed n e, .computed n' e' => n == n' && e == e'
  | _, _ => false

/-- `SchemaField.to_dict`: the ordered key/value mapping, `FieldType` values
rendered by `repr`.  Dataclass field order puts the base class's `name` and
`kind` first, then the subclass's own fields. -/
def fieldToMap : SchemaFieldV2 → List (Chars × Chars)
  | .physical n t =>
      [(lit "name", n), (lit "kind", lit "physical"), (lit "type", rep t)]
  | .metadata n k t =>
      [(lit "name", n), (lit "kind", lit "metadata"), (lit "key", k),
       (lit "type", rep t)]
  | .computed n e =>
      [(lit "name", n), (lit "kind", lit "computed"), (lit "expression", e)]

/-- `schema.py` `Watermark`. -/
structure Watermark where
  name : Chars
  expression : Chars
  deriving DecidableEq

/-- `schema.py` `Constraints`; `primary_key` is `None` when `from_json`
received no `constraints` key. -/
structure Constraints where
  primary_key : Option (List Chars)
  deriving DecidableEq

/-- `schema.py` `SchemaV2`. -/
structure SchemaV2 where
  fields : List SchemaFieldV2
  watermarks : List Watermark
  constraints : Constraints
  deriving DecidableEq

/-- The plain JSON values `SchemaV2.to_dict` produces. -/
inductive JVal where
  | s (v : Chars)
  | null
  | arr (l : List JVal)
  | obj (l : List (Chars × JVal))

def lbrace : Char := Char.ofNat 123

def rbrace : Char := Char.ofNat 125

mutual
/-- `json.dumps` with its default separators, on the values `to_dict`
produces (no string arising here needs escaping). -/
def dump : JVal → Chars
  | .s v => '"' :: (v ++ ['"'])
  | .null => lit "null"
  | .arr l => '[' :: (dumpList l ++ [']'])
  | .obj l => lbrace :: (dumpObj l ++ [rbrace])

def dumpList : List JVal → Chars
  | [] => []
  | [x] => dump x
  | x :: y :: xs => dump x ++ lit ", " ++ dumpList (y :: xs)

def dumpObj : List (Chars × JVal) → Chars
  | [] => []
  | [(k, v)] => '"' :: (k ++ lit "\": ") ++ dump v
  | (k, v) :: y :: xs =>
      ('"' :: (k ++ lit "\": ") ++ dump v) ++ lit ", " ++ dumpObj (y :: xs)
end

/-- `SchemaField.to_dict` as a JSON object. -/
def fieldToDict (f : SchemaFieldV2) : JVal :=
  .obj ((fieldToMap f).map fun kv => (kv.1, .s kv.2))

/-- `SchemaV2.to_dict`. -/
def to_dict (s : SchemaV2) : JVal :=
  .obj [
    (lit "fields", .arr (s.fields.map fieldToDict)),
    (lit "watermarks", .arr (s.watermarks.map fun w =>
      .obj [(lit "name", .s w.name), (lit "expression", .s w.expression)])),
    (lit "constraints", .obj [(lit "primary_key",
      match s.constraints.primary_key with
      | none => JVal.null
      | some pk => .arr (pk.map JVal.s))])]

/-- `SchemaV2.__eq__`: same class and equal `hash(json.dumps(to_dict()))`;
modelled as equality of the dumped strings (Python's string hash is a
function of the string; collisions between distinct dumps are not
modelled). -/
def schemaV2Eq (a b : SchemaV2) : Bool := dump (to_dict a) == dump (to_dict b)

/-- A JSON mapping with string values, as a field or watermark entry of the
`from_json` input; `jget` is Python's `m[k]`. -/
abbrev JMap := List (Chars × Chars)

def jget (m : JMap) (k : Chars) : Option Chars :=
  match m with
  | [] => none
  | (k', v) :: rest => if k' == k then some v else jget rest k

/-- The mapping passed to `SchemaV2.from_json`: each top-level key may be
absent; a present `constraints` value may itself lack `primary_key`
(in which case `.get('primary_key')` yields `None`). -/
structure SchemaJson where
  fields : Option (List JMap)
  watermarks : Option (List JMap)
  constraints : Option (Option (List Chars))

/-- `schema_field_factory` with the `get` classmethods it calls: dispatch on
`kind`; a missing key raises `KeyError`, an unrecognized type text raises a
compiler error, an unknown kind raises `ValueError` — all modelled as
`Except.error` with a tag naming the failure. -/
def schema_field_factory (f : JMap) : Except Chars SchemaFieldV2 :=
  match jget f (lit "kind") with
  | none => .error (lit "KeyError: kind")
  | some kind =>
    if kind = lit "physical" then
      match jget f (lit "name") with
      | none => .error (lit "KeyError: name")
      | some name =>
        match jget f (lit "type") with
        | none => .error (lit "KeyError: type")
        | some ty =>
          match fromStr ty with
          | none => .error (lit "type not recognized")
          | some t => .ok (.physical name t)
    else if kind = lit "metadata" then
      match jget f (lit "name") with
      | none => .error (lit "KeyError: name")
      | some name =>
        match jget f (lit "key") with
        | none => .error (lit "KeyError: key")
        | some key =>
          match jget f (lit "type") with
          | none => .error (lit "KeyError: type")
          | some ty =>
            match fromStr ty with
            | none => .error (lit "type not recognized")
            | some t => .ok (.metadata name key t)
    else if kind = lit "computed" then
      match jget f (lit "name") with
      | none => .error (lit "KeyError: name")
      | some name =>
        match jget f (lit "expression") with
        | none => .error (lit "KeyError: expression")
        | some e => .ok (.computed name e)
    else .error (lit "Unknown field kind")

/-- The watermark comprehension of `from_json`: `Watermark(name=w["name"],
expression=w["expression"])`, `KeyError` on a missing key. -/
def watermark_factory (w : JMap) : Except Chars Watermark :=
  match jget w (lit "name") with
  | none => .error (lit "KeyError: name")
  | some n =>
    match jget w (lit "expression") with
    | none => .error (lit "KeyError: expression")
    | some e => .ok ⟨n, e⟩

/-- A Python list comprehension over a fallible element mapper: the first
failure propagates. -/
def mapExcept {α β : Type} (g : α → Except Chars β) :
    List α → Except Chars (List β)
  | [] => .ok []
  | x :: xs =>
    match g x with
    | .error e => .error e
    | .ok y =>
      match mapExcept g xs with
      | .error e => .error e
      | .ok ys => .ok (y :: ys)

/-- `SchemaV2.from_json`: fields, then watermarks, then
`json.get('constraints', dict()).get('primary_key')`. -/
def from_json (j : SchemaJson) : Except Chars SchemaV2 :=
  match mapExcept schema_field_factory (j.fields.getD []) with
  | .error e => .error e
  | .ok fs =>
    match mapExcept watermark_factory (j.watermarks.getD []) with
    | .error e => .error e
    | .ok ws => .ok ⟨fs, ws, ⟨j.constraints.getD none⟩⟩

/-- `asdict` of a `Watermark`: its ordered key/value mapping. -/
def wmToMap (w : Watermark) : JMap :=
  [(lit "name", w.name), (lit "expression", w.expression)]

/-- The data `to_dict` emits, reshaped as `from_json` input (the round
trip `Schema.from_json(schema.to_dict())`). -/
def to_dict_asJson (s : SchemaV2) : SchemaJson :=
  ⟨some (s.fields.map fieldToMap), some (s.watermarks.map wmToMap),
   some s.constraints.primary_key⟩

/-- Does a node's rendered text parse back to an equally rendered node?
(The `MAP<INT, DEC>` family of parseable types fails this: their canonical
rendering does not re-parse.) -/
def typeReparses (t : FieldType) : Bool :=
  match fromStr (rep t) with
  | some u => rep u == rep t
  | none => false

/-- A `schema.py` field whose serialized form re-parses. -/
def fieldReparses : SchemaFieldV2 → Bool
  | .physical _ t => typeReparses t
  | .metadata _ _ t => typeReparses t
  | .computed _ _ => true

/-- A field entry `schema_field_factory` accepts: a known kind with every
key that kind requires present and, where a type is required, parseable. -/
def entryWellFormed (f : JMap) : Bool :=
  match jget f (lit "kind") with
  | none => false
  | some kind =>
    if kind = lit "physical" then
      (jget f (lit "name")).isSome &&
        (match jget f (lit "type") with
         | some ty => (fromStr ty).isSome
         | none => false)
    else if kind = lit "metadata" then
      (jget f (lit "name")).isSome && (jget f (lit "key")).isSome &&
        (match jget f (lit "type") with
         | some ty => (fromStr ty).isSome
         | none => false)
    else if kind = lit "computed" then
      (jget f (lit "name")).isSome && (jget f (lit "expression")).isSome
    else false

/-- A watermark entry the comprehension accepts. -/
def wmWellFormed (w : JMap) : Bool :=
  (jget w (lit "name")).isSome && (jget w (lit "expression")).isSome

/-! ### The declarative (apply-based) reconciliation variant -/

instance {e a : Type} [DecidableEq e] [DecidableEq a] : DecidableEq (Except e a) :=
  fun x y =>
  match x, y with
  | .error u, .error v =>
    if h : u = v then .isTrue (by rw [h]) else .isFalse (fun hc => h (by injection hc))
  | .ok u, .ok v =>
    if h : u = v then .isTrue (by rw [h]) else .isFalse (fun hc => h (by injection hc))
  | .error _, .ok _ => .isFalse (fun hc => Except.noConfusion hc)
  | .ok _, .error _ => .isFalse (fun hc => Except.noConfusion hc)

/-- Modelled from the spec: the declarative variant's reduction of the
dry-run apply result list — `any(result != "unchanged")`.  Only the
endpoint client (`DecodableControlPlaneApiClient.apply`) is among the
sources; the dbt-side consumer of its per-resource `result` values is not,
so this follows §4.5's words. -/
def applyHasChanged (results : List Chars) : Bool :=
  results.any (fun r => r ≠ lit "unchanged")

/-! ## The claims -/

/-- Parse two texts and compare the nodes with the source's `__eq__`
(`false` also when either text fails to parse). -/
def peq (s1 s2 : String) : Bool :=
  match fromStr (lit s1), fromStr (lit s2) with
  | some a, some b => pyEq a b
  | _, _ => false

/-! ### Basic facts about the string helpers -/

theorem peel_app (p r : Chars) : peel p (p ++ r) = some r := by
  induction p with
  | nil => rfl
  | cons c cs ih => simp [peel, ih]

theorem peel_sound : ∀ {p s r : Chars}, peel p s = some r → s = p ++ r := by
  intro p
  induction p with
  | nil =>
    intro s r h
    have hs : s = r := by simpa [peel] using h
    simp [hs]
  | cons c cs ih =>
    intro s r h
    cases s with
    | nil => simp [peel] at h
    | cons d ds =>
      simp only [peel] at h
      by_cases hd : d = c
      · rw [if_pos hd] at h
        subst hd
        simp [ih h]
      · rw [if_neg hd] at h
        exact absurd h (by simp)

theorem peelEnd_app (p r : Chars) : peelEnd p (r ++ p) = some r := by
  unfold peelEnd
  rw [List.reverse_append, peel_app]
  simp

theorem peelEnd_sound {p s r : Chars} (h : peelEnd p s = some r) : s = r ++ p := by
  unfold peelEnd at h
  cases hp : peel p.reverse s.reverse with
  | none => rw [hp] at h; simp at h
  | some q =>
    rw [hp] at h
    have h' : q.reverse = r := by simpa using h
    have hs := peel_sound hp
    have : s.reverse.reverse = (p.reverse ++ q).reverse := by rw [hs]
    simpa [← h'] using this

theorem peelEnd_none_of_getLast {pat s : Chars} {c d : Char}
    (hp : pat.getLast? = some d) (hs : s.getLast? = some c) (h : c ≠ d) :
    peelEnd pat s = none := by
  unfold peelEnd
  have hp' : pat.reverse.head? = some d := by rw [List.head?_reverse, hp]
  have hs' : s.reverse.head? = some c := by rw [List.head?_reverse, hs]
  cases hpr : pat.reverse with
  | nil => rw [hpr] at hp'; simp at hp'
  | cons x xs =>
    cases hsr : s.reverse with
    | nil => rw [hsr] at hs'; simp at hs'
    | cons y ys =>
      rw [hpr] at hp'
      rw [hsr] at hs'
      simp only [List.head?_cons, Option.some.injEq] at hp' hs'
      subst hp'
      subst hs'
      simp [peel, h]

theorem lastSplit_cons (c : Char) (rest : Chars) :
    lastSplit (c :: rest) =
      match lastSplit rest with
      | some (k, v) => some (c :: k, v)
      | none =>
        match rest with
        | d :: v => if c = ',' then if d = ' ' then some ([], v) else none else none
        | [] => none := rfl

theorem lastSplit_sound : ∀ {m k v : Chars},
    lastSplit m = some (k, v) → m = k ++ ',' :: ' ' :: v := by
  intro m
  induction m with
  | nil => intro k v h; simp [lastSplit] at h
  | cons c rest ih =>
    intro k v h
    rw [lastSplit_cons] at h
    split at h
    · rename_i k' v' heq
      simp only [Option.some.injEq, Prod.mk.injEq] at h
      rw [← h.1, ← h.2]
      simpa using ih heq
    · split at h
      · split at h
        · split at h
          · rename_i hnone d v2 hc hd
            simp only [Option.some.injEq, Prod.mk.injEq] at h
            rw [← h.1, ← h.2]
            rw [hc, hd]
            simp
          · simp at h
        · simp at h
      · simp at h

theorem lastSplit_app {v : Chars} (hv : lastSplit v = none) :
    ∀ k : Chars, lastSplit (k ++ ',' :: ' ' :: v) = some (k, v) := by
  intro k
  induction k with
  | nil =>
    have h1 : lastSplit (' ' :: v) = none := by
      rw [lastSplit_cons, hv]
      cases v with
      | nil => rfl
      | cons d v2 => simp
    rw [List.nil_append, lastSplit_cons, h1]
    simp
  | cons c cs ih =>
    rw [List.cons_append, lastSplit_cons, ih]

theorem digitChar_isDigit (d : Nat) : (digitChar d).isDigit = true := by
  unfold digitChar
  split <;> decide

theorem digitChar_val (d : Nat) (h : d < 10) : (digitChar d).toNat - 48 = d := by
  interval_cases d <;> decide

theorem natStrGo_acc : ∀ (fuel n : Nat) (acc : Chars),
    natStrGo fuel n acc = natStrGo fuel n [] ++ acc := by
  intro fuel
  induction fuel with
  | zero => intro n acc; rfl
  | succ f ih =>
    intro n acc
    by_cases h : n < 10
    · simp [natStrGo, h]
    · simp only [natStrGo, if_neg h]
      rw [ih (n / 10) (digitChar (n % 10) :: acc),
        ih (n / 10) (digitChar (n % 10) :: [])]
      simp

theorem natStrGo_fuel : ∀ (n fuel1 fuel2 : Nat), n ≤ fuel1 → n ≤ fuel2 →
    natStrGo fuel1 n [] = natStrGo fuel2 n [] := by
  intro n
  induction n using Nat.strong_induction_on with
  | _ n ih =>
    intro fuel1 fuel2 h1 h2
    by_cases h : n < 10
    · cases fuel1 <;> cases fuel2 <;> simp [natStrGo, h]
    · have h10 : 10 ≤ n := by omega
      cases fuel1 with
      | zero => omega
      | succ f1 =>
        cases fuel2 with
        | zero => omega
        | succ f2 =>
          simp only [natStrGo, if_neg h]
          rw [natStrGo_acc f1, natStrGo_acc f2]
          have hlt : n / 10 < n := Nat.div_lt_self (by omega) (by omega)
          rw [ih (n / 10) hlt f1 f2 (by omega) (by omega)]

/-- The defining recurrence of the standard decimal rendering. -/
theorem natStr_eq (n : Nat) : natStr n =
    if n < 10 then [digitChar n] else natStr (n / 10) ++ [digitChar (n % 10)] := by
  by_cases h : n < 10
  · rw [if_pos h]
    unfold natStr
    cases hn : n <;> simp [natStrGo, hn ▸ h]
  · rw [if_neg h]
    unfold natStr
    cases hn : n with
    | zero => omega
    | succ m =>
      simp only [natStrGo, if_neg (hn ▸ h)]
      rw [natStrGo_acc m]
      have hle : (m + 1) / 10 ≤ m := by omega
      rw [natStrGo_fuel ((m + 1) / 10) m ((m + 1) / 10) hle (le_refl _)]

theorem natStr_ne_nil (n : Nat) : natStr n ≠ [] := by
  rw [natStr_eq]
  split
  · simp
  · simp

theorem natStr_digits (n : Nat) : (natStr n).all Char.isDigit = true := by
  induction n using Nat.strong_induction_on with
  | _ n ih =>
    rw [natStr_eq]
    split
    · simp [digitChar_isDigit]
    · rename_i h
      rw [List.all_append]
      have := ih (n / 10) (Nat.div_lt_self (by omega) (by omega))
      simp [this, digitChar_isDigit]

theorem strToNat_natStr (n : Nat) : strToNat (natStr n) = n := by
  induction n using Nat.strong_induction_on with
  | _ n ih =>
    rw [natStr_eq]
    split
    · rename_i h
      simp [strToNat, digitChar_val n h]
    · rename_i h
      unfold strToNat
      rw [List.foldl_append]
      have hrec : (natStr (n / 10)).foldl (fun acc c => acc * 10 + (c.toNat - 48)) 0 = n / 10 :=
        ih (n / 10) (Nat.div_lt_self (by omega) (by omega))
      rw [hrec]
      simp only [List.foldl_cons, List.foldl_nil]
      rw [digitChar_val (n % 10) (Nat.mod_lt _ (by omega))]
      omega

theorem readNum_natStr (n : Nat) : readNum (natStr n) = some n := by
  unfold readNum
  have h1 : (natStr n).isEmpty = false := by
    cases h : natStr n with
    | nil => exact absurd h (natStr_ne_nil n)
    | cons c cs => simp [List.isEmpty]
  rw [h1, natStr_digits, strToNat_natStr]
  rfl

theorem digit_ne_nl {c : Char} (h : c.isDigit = true) : c ≠ '\n' := by
  intro hc
  subst hc
  simp [Char.isDigit] at h

theorem natStr_noNl (n : Nat) : noNl (natStr n) = true := by
  unfold noNl
  have := natStr_digits n
  rw [List.all_eq_true] at this ⊢
  intro c hc
  exact decide_eq_true (digit_ne_nl (this c hc))

/-! ### Totality of the parser: bounded fuel suffices

Every recursive `from_str` call is on a strictly shorter string (`NotNull`
drops 9 characters, `Array` 7, `T ARRAY` 6, `MAP` at least 7 across both
parts), so recursion depth is bounded by the input length: the Python
recursion terminates on every input. -/

theorem peelEnd_length {p s r : Chars} (h : peelEnd p s = some r) :
    s.length = r.length + p.length := by
  rw [peelEnd_sound h]
  simp

theorem lastSplit_length {m k v : Chars} (h : lastSplit m = some (k, v)) :
    m.length = k.length + 2 + v.length := by
  rw [lastSplit_sound h]
  simp
  omega

theorem fromStrF_succ (f : Nat) (s : Chars) :
    fromStrF (f + 1) s =
      (seqP (notNullF (fromStrF f) s) fun _ =>
       seqP (some (stringTypeM s)) fun _ =>
       seqP (some (binaryTypeM s)) fun _ =>
       seqP (some (numericTypeM s)) fun _ =>
       seqP (some (dateTimeTypeM s)) fun _ =>
       seqP (compoundF (fromStrF f) s) fun _ =>
       seqP (some (kwM (lit "BOOLEAN") .Boolean s)) fun _ =>
       seqP (some (kwM (lit "INTERVAL") .Interval s)) fun _ =>
       some (kwM (lit "MULTISET") .Multiset s)) := rfl

theorem seqP_isSome {x : Option (Option FieldType)}
    {k : Unit → Option (Option FieldType)}
    (hx : x ≠ none) (hk : (k ()).isSome) : (seqP x k).isSome := by
  match x, hx with
  | some none, _ => simpa [seqP] using hk
  | some (some t), _ => simp [seqP]

theorem notNullF_ne_none {f : Nat} {s : Chars} (hs : s.length ≤ f)
    (ih : ∀ s' : Chars, s'.length < f → (fromStrF f s').isSome) :
    notNullF (fromStrF f) s ≠ none := by
  cases hpe : peelEnd (lit " NOT NULL") s with
  | none => simp [notNullF, hpe]
  | some inner =>
    simp only [notNullF, hpe]
    have hlen : s.length = inner.length + 9 := peelEnd_length hpe
    by_cases hnl : noNl inner
    · rw [if_pos hnl]
      have hin := ih inner (by omega)
      cases h2 : fromStrF f inner with
      | none => rw [h2] at hin; simp at hin
      | some o => cases o <;> simp
    · rw [if_neg hnl]
      simp

theorem arrayF_ne_none {f : Nat} {s : Chars} (hs : s.length ≤ f)
    (ih : ∀ s' : Chars, s'.length < f → (fromStrF f s').isSome) :
    arrayF (fromStrF f) s ≠ none := by
  cases hp : peel (lit "ARRAY<") s with
  | none => simp [arrayF, hp]
  | some r =>
    cases hpe : peelEnd ['>'] r with
    | none => simp [arrayF, hp, hpe]
    | some inner =>
      simp only [arrayF, hp, hpe]
      have h1 : s.length = 6 + r.length := by
        rw [peel_sound hp]; simp [lit]; omega
      have h2 : r.length = inner.length + 1 := peelEnd_length hpe
      by_cases hnl : noNl inner
      · rw [if_pos hnl]
        have hin := ih inner (by omega)
        cases h3 : fromStrF f inner with
        | none => rw [h3] at hin; simp at hin
        | some o => cases o <;> simp
      · rw [if_neg hnl]
        simp

theorem tarrayF_ne_none {f : Nat} {s : Chars} (hs : s.length ≤ f)
    (ih : ∀ s' : Chars, s'.length < f → (fromStrF f s').isSome) :
    tarrayF (fromStrF f) s ≠ none := by
  cases hpe : peelEnd (lit " ARRAY") s with
  | none => simp [tarrayF, hpe]
  | some inner =>
    simp only [tarrayF, hpe]
    have hlen : s.length = inner.length + 6 := peelEnd_length hpe
    by_cases hnl : noNl inner
    · rw [if_pos hnl]
      have hin := ih inner (by omega)
      cases h2 : fromStrF f inner with
      | none => rw [h2] at hin; simp at hin
      | some o => cases o <;> simp
    · rw [if_neg hnl]
      simp

theorem mapF_ne_none {f : Nat} {s : Chars} (hs : s.length ≤ f)
    (ih : ∀ s' : Chars, s'.length < f → (fromStrF f s').isSome) :
    mapF (fromStrF f) s ≠ none := by
  cases hp : peel (lit "MAP<") s with
  | none => simp [mapF, hp]
  | some r =>
    cases hpe : peelEnd ['>'] r with
    | none => simp [mapF, hp, hpe]
    | some middle =>
      simp only [mapF, hp, hpe]
      have h1 : s.length = 4 + r.length := by
        rw [peel_sound hp]; simp [lit]; omega
      have h2 : r.length = middle.length + 1 := peelEnd_length hpe
      by_cases hnl : noNl middle
      · rw [if_pos hnl]
        cases hls : lastSplit middle with
        | none => simp
        | some kv =>
          obtain ⟨k, v⟩ := kv
          have h3 : middle.length = k.length + 2 + v.length := lastSplit_length hls
          have hik := ih k (by omega)
          have hiv := ih v (by omega)
          cases h4 : fromStrF f k with
          | none => rw [h4] at hik; simp at hik
          | some ok =>
            cases h5 : fromStrF f v with
            | none => rw [h5] at hiv; simp at hiv
            | some ov => cases ok <;> cases ov <;> simp [h4, h5]
      · rw [if_neg hnl]
        simp

theorem fromStrF_isSome : ∀ (fuel : Nat) (s : Chars),
    s.length < fuel → (fromStrF fuel s).isSome := by
  intro fuel
  induction fuel with
  | zero => intro s h; omega
  | succ f ih =>
    intro s hs
    have hs' : s.length ≤ f := by omega
    rw [fromStrF_succ]
    apply seqP_isSome (notNullF_ne_none hs' ih)
    apply seqP_isSome (by simp)
    apply seqP_isSome (by simp)
    apply seqP_isSome (by simp)
    apply seqP_isSome (by simp)
    apply seqP_isSome ?hcomp
    case hcomp =>
      unfold compoundF
      intro hc
      rcases ha : arrayF (fromStrF f) s with _ | oa
      · exact arrayF_ne_none hs' ih ha
      · rw [ha] at hc
        cases oa with
        | some t => simp [seqP] at hc
        | none =>
          simp only [seqP] at hc
          rcases ht : tarrayF (fromStrF f) s with _ | ot
          · exact tarrayF_ne_none hs' ih ht
          · rw [ht] at hc
            cases ot with
            | some t => simp [seqP] at hc
            | none =>
              simp only [seqP] at hc
              exact mapF_ne_none hs' ih hc
    apply seqP_isSome (by simp)
    apply seqP_isSome (by simp)
    simp

/-! ### Which inputs each grammar rule can match

Failure lemmas keyed on a string's last (sometimes first) character: they
decide, for a composite canonical text, that every grammar rule tried before
the intended one rejects it. -/

@[simp] theorem seqP_some_none (k : Unit → Option (Option FieldType)) :
    seqP (some none) k = k () := rfl

@[simp] theorem seqP_some_some (t : FieldType)
    (k : Unit → Option (Option FieldType)) :
    seqP (some (some t)) k = some (some t) := rfl

theorem getLast_append_ne {x r : Chars} (hr : r ≠ []) :
    (x ++ r).getLast? = r.getLast? := by
  rw [List.getLast?_append]
  cases h : r.getLast? with
  | none => exact absurd (by simpa using h) hr
  | some y => rfl

theorem kwM_sound {kw s : Chars} {t t' : FieldType}
    (h : kwM kw t s = some t') : s = kw ∧ t' = t := by
  unfold kwM at h
  cases hp : peel kw s with
  | none => rw [hp] at h; simp at h
  | some r =>
    rw [hp] at h
    cases r with
    | nil =>
      have := peel_sound hp
      simp only [Option.some.injEq] at h
      simp [this, h.symm]
    | cons a as => simp at h

theorem kwM_none_of_getLast {kw s : Chars} {t : FieldType} {c d : Char}
    (hkw : kw.getLast? = some d) (hs : s.getLast? = some c) (hcd : c ≠ d) :
    kwM kw t s = none := by
  cases h : kwM kw t s with
  | none => rfl
  | some t' =>
    obtain ⟨hsk, _⟩ := kwM_sound h
    rw [hsk, hkw] at hs
    exact absurd ((by simpa using hs) : d = c).symm hcd

theorem kwM_none_of_head {kw s : Chars} {t : FieldType} {c d : Char}
    (hkw : kw.head? = some d) (hs : s.head? = some c) (hcd : c ≠ d) :
    kwM kw t s = none := by
  cases h : kwM kw t s with
  | none => rfl
  | some t' =>
    obtain ⟨hsk, _⟩ := kwM_sound h
    rw [hsk, hkw] at hs
    exact absurd ((by simpa using hs) : d = c).symm hcd

theorem parenNumM_none_of_getLast {name s : Chars} {mk : Nat → FieldType}
    {c : Char} (hs : s.getLast? = some c) (hc : c ≠ ')') :
    parenNumM name mk s = none := by
  cases hp : peel (name ++ ['(']) s with
  | none => simp [parenNumM, hp]
  | some r =>
    cases r with
    | nil => simp [parenNumM, hp, peelEnd, peel]
    | cons a as =>
      have hr : (a :: as).getLast? = some c := by
        rw [← getLast_append_ne (x := name ++ ['(']) (List.cons_ne_nil a as),
          ← peel_sound hp]
        exact hs
      have hpe := peelEnd_none_of_getLast
        (show ([')'] : Chars).getLast? = some ')' from rfl) hr hc
      simp [parenNumM, hp, hpe]

theorem parenNumM_none_of_peel {name s : Chars} {mk : Nat → FieldType}
    (hp : peel (name ++ ['(']) s = none) : parenNumM name mk s = none := by
  simp [parenNumM, hp]

theorem parenNumM_app (name : Chars) (mk : Nat → FieldType) (n : Nat) :
    parenNumM name mk ((name ++ ['(']) ++ (natStr n ++ [')'])) = some (mk n) := by
  unfold parenNumM
  simp only [peel_app, peelEnd_app, readNum_natStr, Option.map_some']

theorem decParams_cases (s : Chars) :
    decParams s = none ∨ s = [] ∨ ∃ body, s = '(' :: (body ++ [')']) := by
  by_cases he : s.isEmpty
  · right; left; simpa using he
  · have hne : s.isEmpty = false := by simpa using he
    cases hp : peel ['('] s with
    | none => left; simp [decParams, hne, hp]
    | some r =>
      cases hpe : peelEnd [')'] r with
      | none => left; simp [decParams, hne, hp, hpe]
      | some body =>
        right; right
        refine ⟨body, ?_⟩
        rw [peel_sound hp, peelEnd_sound hpe]
        rfl

theorem exactNumM_none {name s : Chars} {mk : Nat → Nat → FieldType}
    {c d : Char} (hn : name.getLast? = some d) (hs : s.getLast? = some c)
    (hc1 : c ≠ ')') (hc2 : c ≠ d) : exactNumM name mk s = none := by
  cases hp : peel name s with
  | none => simp [exactNumM, hp]
  | some r =>
    rcases decParams_cases r with hdp | hr | ⟨body, hr⟩
    · simp [exactNumM, hp, hdp]
    · exfalso
      subst hr
      have hsn := peel_sound hp
      rw [List.append_nil] at hsn
      rw [hsn, hn] at hs
      exact hc2 ((by simpa using hs) : d = c).symm
    · exfalso
      have hsapp := peel_sound hp
      rw [hr] at hsapp
      have hlast : s.getLast? = some ')' := by
        rw [hsapp, getLast_append_ne (List.cons_ne_nil _ _)]
        rw [show ('(' :: (body ++ [')']) : Chars) = ('(' :: body) ++ [')'] from rfl]
        exact List.getLast?_concat _
      rw [hlast] at hs
      exact hc1 ((by simpa using hs) : ')' = c).symm

theorem exactNumM_none_of_peel {name s : Chars} {mk : Nat → Nat → FieldType}
    (hp : peel name s = none) : exactNumM name mk s = none := by
  simp [exactNumM, hp]

theorem natStr_nonempty_digits (q : Nat) :
    (!(natStr q).isEmpty && (natStr q).all Char.isDigit) = true := by
  rw [natStr_digits]
  cases hq : natStr q with
  | nil => exact absurd hq (natStr_ne_nil q)
  | cons a as => simp

theorem takeWhile_digits_append (a : Chars) (ha : a.all Char.isDigit = true)
    (c : Char) (hc : c.isDigit = false) (r : Chars) :
    (a ++ c :: r).takeWhile Char.isDigit = a ∧
      (a ++ c :: r).dropWhile Char.isDigit = c :: r := by
  induction a with
  | nil => simp [List.takeWhile_cons, List.dropWhile_cons, hc]
  | cons x xs ih =>
    rw [List.all_cons, Bool.and_eq_true] at ha
    have := ih ha.2
    simp [List.takeWhile_cons, List.dropWhile_cons, ha.1, this.1, this.2]

theorem decParams_app (p q : Nat) :
    decParams ('(' :: ((natStr p ++ ',' :: ' ' :: natStr q) ++ [')'])) =
      some (p, q) := by
  unfold decParams
  rw [if_neg (by simp)]
  rw [show ('(' :: ((natStr p ++ ',' :: ' ' :: natStr q) ++ [')']) : Chars) =
    ['('] ++ ((natStr p ++ ',' :: ' ' :: natStr q) ++ [')']) from rfl]
  have htw := takeWhile_digits_append (natStr p) (natStr_digits p) ','
    (by decide) (' ' :: natStr q)
  have hne : (natStr p).isEmpty = false := by
    simpa using natStr_ne_nil p
  simp only [peel_app, peelEnd_app, htw.1, htw.2, hne, Bool.false_eq_true,
    if_false, List.isEmpty_cons, strToNat_natStr]
  rw [show (',' :: ' ' :: natStr q : Chars) = [',', ' '] ++ natStr q from rfl]
  simp only [peel_app]
  rw [if_pos (natStr_nonempty_digits q), strToNat_natStr]

theorem exactNumM_app (name : Chars) (mk : Nat → Nat → FieldType) (p q : Nat) :
    exactNumM name mk
      (name ++ '(' :: ((natStr p ++ ',' :: ' ' :: natStr q) ++ [')'])) =
      some (mk p q) := by
  unfold exactNumM
  simp only [peel_app, decParams_app, Option.map_some']

theorem timestampM_none {s : Chars} {c : Char} (hs : s.getLast? = some c)
    (hc1 : c ≠ ')') (hc2 : c ≠ 'E') : timestampM s = none := by
  cases hp : peel (lit "TIMESTAMP(") s with
  | none => simp [timestampM, hp]
  | some r =>
    by_cases hds : (r.takeWhile Char.isDigit).isEmpty
    · simp [timestampM, hp, hds]
    · have hds' : (r.takeWhile Char.isDigit).isEmpty = false := by simpa using hds
      cases hpt : peel [')'] (r.dropWhile Char.isDigit) with
      | none => simp [timestampM, hp, hds', hpt]
      | some tail =>
        have hdrop : r.dropWhile Char.isDigit = [')'] ++ tail := peel_sound hpt
        have hr : r = r.takeWhile Char.isDigit ++ (')' :: tail) := by
          conv_lhs => rw [← List.takeWhile_append_dropWhile (p := Char.isDigit) (l := r)]
          rw [hdrop]
          rfl
        have hslast : s.getLast? = (')' :: tail).getLast? := by
          rw [peel_sound hp, hr, ← List.append_assoc]
          exact getLast_append_ne (List.cons_ne_nil _ _)
        cases htail : tail with
        | nil =>
          exfalso
          rw [htail] at hslast
          rw [hslast] at hs
          exact hc1 (by simpa using hs.symm)
        | cons e es =>
          have htl : s.getLast? = (e :: es).getLast? := by
            rw [hslast, htail, List.getLast?_cons_cons]
          by_cases h1 : e :: es = lit " WITH TIME ZONE"
          · exfalso
            rw [h1] at htl
            have hE : (lit " WITH TIME ZONE").getLast? = some 'E' := by decide
            have : (some c : Option Char) = some 'E' := by rw [← hs, htl]; exact hE
            exact hc2 (by simpa using this)
          · by_cases h2 : e :: es = lit " WITHOUT TIME ZONE"
            · exfalso
              rw [h2] at htl
              have hE : (lit " WITHOUT TIME ZONE").getLast? = some 'E' := by decide
              have : (some c : Option Char) = some 'E' := by rw [← hs, htl]; exact hE
              exact hc2 (by simpa using this)
            · subst htail
              simp [timestampM, hp, hds', hpt, h1, h2]

theorem timestampM_app_with (p : Nat) :
    timestampM (lit "TIMESTAMP(" ++ (natStr p ++ ')' :: lit " WITH TIME ZONE")) =
      some (.Timestamp p true) := by
  have htw := takeWhile_digits_append (natStr p) (natStr_digits p) ')'
    (by decide) (lit " WITH TIME ZONE")
  have hne : (natStr p).isEmpty = false := by simpa using natStr_ne_nil p
  simp only [timestampM, peel_app, htw.1, htw.2, hne, Bool.false_eq_true,
    if_false, strToNat_natStr]
  rw [show (')' :: lit " WITH TIME ZONE" : Chars) = [')'] ++ lit " WITH TIME ZONE"
    from rfl]
  simp only [peel_app]
  simp
  all_goals decide

theorem timestampM_app_without (p : Nat) :
    timestampM (lit "TIMESTAMP(" ++ (natStr p ++ ')' :: lit " WITHOUT TIME ZONE")) =
      some (.Timestamp p false) := by
  have htw := takeWhile_digits_append (natStr p) (natStr_digits p) ')'
    (by decide) (lit " WITHOUT TIME ZONE")
  have hne : (natStr p).isEmpty = false := by simpa using natStr_ne_nil p
  simp only [timestampM, peel_app, htw.1, htw.2, hne, Bool.false_eq_true,
    if_false, strToNat_natStr]
  rw [show (')' :: lit " WITHOUT TIME ZONE" : Chars) = [')'] ++ lit " WITHOUT TIME ZONE"
    from rfl]
  simp only [peel_app]
  simp
  all_goals decide

/-! ### The recursive rules on canonical inputs -/

theorem notNullF_noMatch {recur : Chars → Option (Option FieldType)} {s : Chars}
    {c : Char} (hs : s.getLast? = some c) (hc : c ≠ 'L') :
    notNullF recur s = some none := by
  have hpe : peelEnd (lit " NOT NULL") s = none :=
    peelEnd_none_of_getLast (by decide) hs hc
  simp [notNullF, hpe]

theorem notNullF_app {recur : Chars → Option (Option FieldType)} {x : Chars}
    {t' : FieldType} (hnl : noNl x = true) (hr : recur x = some (some t')) :
    notNullF recur (x ++ lit " NOT NULL") = some (some (.NotNull t')) := by
  simp [notNullF, peelEnd_app, hnl, hr]

theorem tarrayF_noMatch {recur : Chars → Option (Option FieldType)} {s : Chars}
    {c : Char} (hs : s.getLast? = some c) (hc : c ≠ 'Y') :
    tarrayF recur s = some none := by
  have hpe : peelEnd (lit " ARRAY") s = none :=
    peelEnd_none_of_getLast (by decide) hs hc
  simp [tarrayF, hpe]

theorem tarrayF_app {recur : Chars → Option (Option FieldType)} {x : Chars}
    {t' : FieldType} (hnl : noNl x = true) (hr : recur x = some (some t')) :
    tarrayF recur (x ++ lit " ARRAY") = some (some (.TArray t')) := by
  simp [tarrayF, peelEnd_app, hnl, hr]

theorem arrayF_noMatch_last {recur : Chars → Option (Option FieldType)} {s : Chars}
    {c : Char} (hs : s.getLast? = some c) (hc : c ≠ '>') :
    arrayF recur s = some none := by
  cases hp : peel (lit "ARRAY<") s with
  | none => simp [arrayF, hp]
  | some r =>
    cases r with
    | nil => simp [arrayF, hp, peelEnd, peel]
    | cons a as =>
      have hr : (a :: as).getLast? = some c := by
        rw [← getLast_append_ne (x := lit "ARRAY<") (List.cons_ne_nil a as),
          ← peel_sound hp]
        exact hs
      simp [arrayF, hp,
        peelEnd_none_of_getLast (show (['>'] : Chars).getLast? = some '>' from rfl) hr hc]

theorem arrayF_app {recur : Chars → Option (Option FieldType)} {x : Chars}
    {t' : FieldType} (hnl : noNl x = true) (hr : recur x = some (some t')) :
    arrayF recur (lit "ARRAY<" ++ (x ++ ['>'])) = some (some (.Array t')) := by
  simp [arrayF, peel_app, peelEnd_app, hnl, hr]

theorem mapF_app {recur : Chars → Option (Option FieldType)} {kx vx : Chars}
    {kt vt : FieldType} (hnl : noNl (kx ++ ',' :: ' ' :: vx) = true)
    (hvs : lastSplit vx = none)
    (hk : recur kx = some (some kt)) (hv : recur vx = some (some vt)) :
    mapF recur (lit "MAP<" ++ ((kx ++ ',' :: ' ' :: vx) ++ ['>'])) =
      some (some (.Map kt vt)) := by
  have hls := lastSplit_app hvs kx
  have h1 : peel (lit "MAP<") (lit "MAP<" ++ ((kx ++ ',' :: ' ' :: vx) ++ ['>'])) =
      some ((kx ++ ',' :: ' ' :: vx) ++ ['>']) := peel_app _ _
  have h2 : peelEnd ['>'] ((kx ++ ',' :: ' ' :: vx) ++ ['>']) =
      some (kx ++ ',' :: ' ' :: vx) := peelEnd_app _ _
  simp only [mapF, h1, h2, hnl, hls, hk, hv, if_true]

/-! ### Family dispatchers reject strings by their last character -/

theorem stringTypeM_none_of_getLast {s : Chars} {c : Char}
    (hs : s.getLast? = some c) (h1 : c ≠ ')') (h2 : c ≠ 'G') :
    stringTypeM s = none := by
  rw [stringTypeM, parenNumM_none_of_getLast hs h1,
    parenNumM_none_of_getLast hs h1, kwM_none_of_getLast (by decide) hs h2]
  rfl

theorem binaryTypeM_none_of_getLast {s : Chars} {c : Char}
    (hs : s.getLast? = some c) (h1 : c ≠ ')') (h2 : c ≠ 'S') :
    binaryTypeM s = none := by
  rw [binaryTypeM, parenNumM_none_of_getLast hs h1,
    parenNumM_none_of_getLast hs h1, kwM_none_of_getLast (by decide) hs h2]
  rfl

theorem numericTypeM_none_of_getLast {s : Chars} {c : Char}
    (hs : s.getLast? = some c) (h1 : c ≠ ')') (h2 : c ≠ 'L') (h3 : c ≠ 'C')
    (h4 : c ≠ 'T') (h5 : c ≠ 'E') : numericTypeM s = none := by
  rw [numericTypeM, exactNumM_none (by decide) hs h1 h2,
    exactNumM_none (by decide) hs h1 h3, exactNumM_none (by decide) hs h1 h3,
    kwM_none_of_getLast (by decide) hs h4, kwM_none_of_getLast (by decide) hs h4,
    kwM_none_of_getLast (by decide) hs h4, kwM_none_of_getLast (by decide) hs h4,
    kwM_none_of_getLast (by decide) hs h4, kwM_none_of_getLast (by decide) hs h5]
  rfl

theorem dateTimeTypeM_none_of_getLast {s : Chars} {c : Char}
    (hs : s.getLast? = some c) (h1 : c ≠ ')') (h2 : c ≠ 'E') :
    dateTimeTypeM s = none := by
  rw [dateTimeTypeM, kwM_none_of_getLast (by decide) hs h2,
    parenNumM_none_of_getLast hs h1, timestampM_none hs h1 h2,
    parenNumM_none_of_getLast hs h1]
  rfl

@[simp] theorem orElse_none (f : Unit → Option FieldType) :
    (none : Option FieldType).orElse f = f () := rfl

@[simp] theorem orElse_some (t : FieldType) (f : Unit → Option FieldType) :
    (some t).orElse f = some t := rfl

theorem getLast_app_app (a b : Chars) (c : Char) :
    (a ++ (b ++ [c])).getLast? = some c := by
  rw [← List.append_assoc]
  exact List.getLast?_concat _

theorem noNl_cons (c : Char) (s : Chars) :
    noNl (c :: s) = (decide (c ≠ '\n') && noNl s) := List.all_cons

/-! ### Each family dispatcher accepts its own canonical renderings -/

theorem stringTypeM_char (n : Nat) :
    stringTypeM ((lit "CHAR" ++ ['(']) ++ (natStr n ++ [')'])) =
      some (.Char n) := by
  simp only [stringTypeM, parenNumM_app, orElse_some]

theorem stringTypeM_varchar (n : Nat) :
    stringTypeM ((lit "VARCHAR" ++ ['(']) ++ (natStr n ++ [')'])) =
      some (.Varchar n) := by
  simp only [stringTypeM,
    show parenNumM (lit "CHAR") FieldType.Char
      ((lit "VARCHAR" ++ ['(']) ++ (natStr n ++ [')'])) = none from rfl,
    parenNumM_app, orElse_none, orElse_some]

theorem binaryTypeM_binary (n : Nat) :
    binaryTypeM ((lit "BINARY" ++ ['(']) ++ (natStr n ++ [')'])) =
      some (.Binary n) := by
  simp only [binaryTypeM, parenNumM_app, orElse_some]

theorem binaryTypeM_varbinary (n : Nat) :
    binaryTypeM ((lit "VARBINARY" ++ ['(']) ++ (natStr n ++ [')'])) =
      some (.Varbinary n) := by
  simp only [binaryTypeM,
    show parenNumM (lit "BINARY") FieldType.Binary
      ((lit "VARBINARY" ++ ['(']) ++ (natStr n ++ [')'])) = none from rfl,
    parenNumM_app, orElse_none, orElse_some]

theorem numericTypeM_decimal (p q : Nat) :
    numericTypeM (lit "DECIMAL" ++
      '(' :: ((natStr p ++ ',' :: ' ' :: natStr q) ++ [')'])) =
      some (.Decimal p q) := by
  simp only [numericTypeM, exactNumM_app, orElse_some]

theorem numericTypeM_dec (p q : Nat) :
    numericTypeM (lit "DEC" ++
      '(' :: ((natStr p ++ ',' :: ' ' :: natStr q) ++ [')'])) =
      some (.Dec p q) := by
  have h1 : exactNumM (lit "DECIMAL") FieldType.Decimal (lit "DEC" ++
      '(' :: ((natStr p ++ ',' :: ' ' :: natStr q) ++ [')'])) = none := rfl
  simp only [numericTypeM, h1, exactNumM_app, orElse_none, orElse_some]

theorem numericTypeM_numeric (p q : Nat) :
    numericTypeM (lit "NUMERIC" ++
      '(' :: ((natStr p ++ ',' :: ' ' :: natStr q) ++ [')'])) =
      some (.Numeric p q) := by
  have h1 : exactNumM (lit "DECIMAL") FieldType.Decimal (lit "NUMERIC" ++
      '(' :: ((natStr p ++ ',' :: ' ' :: natStr q) ++ [')'])) = none := rfl
  have h2 : exactNumM (lit "DEC") FieldType.Dec (lit "NUMERIC" ++
      '(' :: ((natStr p ++ ',' :: ' ' :: natStr q) ++ [')'])) = none := rfl
  simp only [numericTypeM, h1, h2, exactNumM_app, orElse_none, orElse_some]

theorem dateTimeTypeM_time (n : Nat) :
    dateTimeTypeM ((lit "TIME" ++ ['(']) ++ (natStr n ++ [')'])) =
      some (.Time n) := by
  have h1 : kwM (lit "DATE") FieldType.Date
      ((lit "TIME" ++ ['(']) ++ (natStr n ++ [')'])) = none := rfl
  simp only [dateTimeTypeM, h1, parenNumM_app, orElse_none, orElse_some]

theorem dateTimeTypeM_ts_with (p : Nat) :
    dateTimeTypeM (lit "TIMESTAMP(" ++ (natStr p ++ ')' :: lit " WITH TIME ZONE")) =
      some (.Timestamp p true) := by
  have h1 : kwM (lit "DATE") FieldType.Date
      (lit "TIMESTAMP(" ++ (natStr p ++ ')' :: lit " WITH TIME ZONE")) = none := rfl
  have h2 : parenNumM (lit "TIME") FieldType.Time
      (lit "TIMESTAMP(" ++ (natStr p ++ ')' :: lit " WITH TIME ZONE")) = none := rfl
  simp only [dateTimeTypeM, h1, h2, timestampM_app_with, orElse_none, orElse_some]

theorem dateTimeTypeM_ts_without (p : Nat) :
    dateTimeTypeM (lit "TIMESTAMP(" ++
      (natStr p ++ ')' :: lit " WITHOUT TIME ZONE")) =
      some (.Timestamp p false) := by
  have h1 : kwM (lit "DATE") FieldType.Date
      (lit "TIMESTAMP(" ++ (natStr p ++ ')' :: lit " WITHOUT TIME ZONE")) = none := rfl
  have h2 : parenNumM (lit "TIME") FieldType.Time
      (lit "TIMESTAMP(" ++ (natStr p ++ ')' :: lit " WITHOUT TIME ZONE")) = none := rfl
  simp only [dateTimeTypeM, h1, h2, timestampM_app_without, orElse_none, orElse_some]

theorem dateTimeTypeM_ltz (n : Nat) :
    dateTimeTypeM ((lit "TIMESTAMP_LTZ" ++ ['(']) ++ (natStr n ++ [')'])) =
      some (.TimestampLocal n) := by
  have h1 : kwM (lit "DATE") FieldType.Date
      ((lit "TIMESTAMP_LTZ" ++ ['(']) ++ (natStr n ++ [')'])) = none := rfl
  have h2 : parenNumM (lit "TIME") FieldType.Time
      ((lit "TIMESTAMP_LTZ" ++ ['(']) ++ (natStr n ++ [')'])) = none := rfl
  have h3 : timestampM ((lit "TIMESTAMP_LTZ" ++ ['(']) ++ (natStr n ++ [')'])) =
      none := rfl
  simp only [dateTimeTypeM, h1, h2, h3, parenNumM_app, orElse_none, orElse_some]

theorem noNl_append (a b : Chars) : noNl (a ++ b) = (noNl a && noNl b) :=
  List.all_append

theorem rep_noNl : ∀ t : FieldType, noNl (rep t) = true := by
  intro t
  induction t with
  | NotNull x ih => simp [rep, noNl_append, ih]; decide
  | Char n => simp [rep, noNl_append, natStr_noNl]; decide
  | Varchar n => simp [rep, noNl_append, natStr_noNl]; decide
  | String n => exact (by decide : noNl (lit "STRING") = true)
  | Binary n => simp [rep, noNl_append, natStr_noNl]; decide
  | Varbinary n => simp [rep, noNl_append, natStr_noNl]; decide
  | Bytes n => exact (by decide : noNl (lit "BYTES") = true)
  | Decimal p q => simp [rep, noNl_append, natStr_noNl]; decide
  | Dec p q => simp [rep, noNl_append, natStr_noNl]; decide
  | Numeric p q => simp [rep, noNl_append, natStr_noNl]; decide
  | TinyInt => decide
  | SmallInt => decide
  | Int => decide
  | BigInt => decide
  | Float => decide
  | Double => decide
  | Date => decide
  | Time p => simp [rep, noNl_append, natStr_noNl]; decide
  | Timestamp p tz =>
    cases tz <;> simp [rep, noNl_append, natStr_noNl] <;> decide
  | TimestampLocal p => simp [rep, noNl_append, natStr_noNl]; decide
  | Array x ih => simp [rep, noNl_append, ih]; decide
  | TArray x ih => simp [rep, noNl_append, ih]; decide
  | Map k v ihk ihv => simp [rep, noNl_append, ihk, ihv]; decide
  | PrimaryKey x ih => simp [rep, noNl_append, ih]; decide
  | Boolean => decide
  | Interval => decide
  | Multiset => decide

theorem rep_Decimal_shape (p q : Nat) : rep (.Decimal p q) =
    lit "DECIMAL" ++ '(' :: ((natStr p ++ ',' :: ' ' :: natStr q) ++ [')']) := by
  simp only [rep]
  rw [show (lit "DECIMAL(" : Chars) = lit "DECIMAL" ++ ['('] from rfl,
    show (lit ", " : Chars) = [',', ' '] from rfl,
    show (lit ")" : Chars) = [')'] from rfl]
  simp [List.append_assoc]

theorem rep_Dec_shape (p q : Nat) : rep (.Dec p q) =
    lit "DEC" ++ '(' :: ((natStr p ++ ',' :: ' ' :: natStr q) ++ [')']) := by
  simp only [rep]
  rw [show (lit "DEC(" : Chars) = lit "DEC" ++ ['('] from rfl,
    show (lit ", " : Chars) = [',', ' '] from rfl,
    show (lit ")" : Chars) = [')'] from rfl]
  simp [List.append_assoc]

theorem rep_Numeric_shape (p q : Nat) : rep (.Numeric p q) =
    lit "NUMERIC" ++ '(' :: ((natStr p ++ ',' :: ' ' :: natStr q) ++ [')']) := by
  simp only [rep]
  rw [show (lit "NUMERIC(" : Chars) = lit "NUMERIC" ++ ['('] from rfl,
    show (lit ", " : Chars) = [',', ' '] from rfl,
    show (lit ")" : Chars) = [')'] from rfl]
  simp [List.append_assoc]

theorem rep_Timestamp_with (p : Nat) : rep (.Timestamp p true) =
    lit "TIMESTAMP(" ++ (natStr p ++ ')' :: lit " WITH TIME ZONE") := by
  simp only [rep, if_pos]
  rw [show (lit ")" : Chars) = [')'] from rfl]
  simp [List.append_assoc]

theorem rep_Timestamp_without (p : Nat) : rep (.Timestamp p false) =
    lit "TIMESTAMP(" ++ (natStr p ++ ')' :: lit " WITHOUT TIME ZONE") := by
  simp only [rep, if_neg]
  rw [show (lit ")" : Chars) = [')'] from rfl]
  simp [List.append_assoc]

theorem rep_Map_shape (k v : FieldType) : rep (.Map k v) =
    lit "MAP<" ++ ((rep k ++ ',' :: ' ' :: rep v) ++ ['>']) := by
  simp only [rep]
  rw [show (lit ", " : Chars) = [',', ' '] from rfl,
    show (lit ">" : Chars) = ['>'] from rfl]
  simp [List.append_assoc]

/-- Canonical-form round trip: on a canonical rendering of any grammar node
whose `MAP` values render without `", "`, the parser succeeds and the result
renders back to the same text (given enough fuel, i.e. the recursion
terminates there). -/
theorem roundTripF : ∀ (t : FieldType) (fuel : Nat), goodNode t = true →
    (rep t).length < fuel →
    ∃ t' : FieldType, fromStrF fuel (rep t) = some (some t') ∧ rep t' = rep t := by
  intro t
  induction t with
  | NotNull x ih =>
    intro fuel hg hf
    cases fuel with
    | zero => exact absurd hf (by omega)
    | succ f =>
      have hg' : goodNode x = true := hg
      have hlen : (rep x).length < f := by
        have h9 : (rep (.NotNull x)).length = (rep x).length + 9 := by
          show (rep x ++ lit " NOT NULL").length = _
          rw [List.length_append, show (lit " NOT NULL").length = 9 from rfl]
        omega
      obtain ⟨t', ht', hrep⟩ := ih f hg' hlen
      refine ⟨.NotNull t', ?_, ?_⟩
      · show fromStrF (f + 1) (rep x ++ lit " NOT NULL") = _
        simp only [fromStrF_succ, notNullF_app (rep_noNl x) ht', seqP_some_some]
      · show rep t' ++ lit " NOT NULL" = rep x ++ lit " NOT NULL"
        rw [hrep]
  | Char n =>
    intro fuel hg hf
    cases fuel with
    | zero => exact absurd hf (by omega)
    | succ f =>
      refine ⟨.Char n, ?_, rfl⟩
      show fromStrF (f + 1) ((lit "CHAR" ++ ['(']) ++ (natStr n ++ [')'])) = _
      have hlast := getLast_app_app (lit "CHAR" ++ ['(']) (natStr n) ')'
      simp only [fromStrF_succ, notNullF_noMatch hlast (by decide), seqP_some_none,
        stringTypeM_char, seqP_some_some]
  | Varchar n =>
    intro fuel hg hf
    cases fuel with
    | zero => exact absurd hf (by omega)
    | succ f =>
      refine ⟨.Varchar n, ?_, rfl⟩
      show fromStrF (f + 1) ((lit "VARCHAR" ++ ['(']) ++ (natStr n ++ [')'])) = _
      have hlast := getLast_app_app (lit "VARCHAR" ++ ['(']) (natStr n) ')'
      simp only [fromStrF_succ, notNullF_noMatch hlast (by decide), seqP_some_none,
        stringTypeM_varchar, seqP_some_some]
  | String n =>
    intro fuel hg hf
    cases fuel with
    | zero => exact absurd hf (by omega)
    | succ f => exact ⟨.String maxLen, rfl, rfl⟩
  | Binary n =>
    intro fuel hg hf
    cases fuel with
    | zero => exact absurd hf (by omega)
    | succ f =>
      refine ⟨.Binary n, ?_, rfl⟩
      show fromStrF (f + 1) ((lit "BINARY" ++ ['(']) ++ (natStr n ++ [')'])) = _
      have hlast := getLast_app_app (lit "BINARY" ++ ['(']) (natStr n) ')'
      have hstr : stringTypeM ((lit "BINARY" ++ ['(']) ++ (natStr n ++ [')'])) =
        none := rfl
      simp only [fromStrF_succ, notNullF_noMatch hlast (by decide), seqP_some_none,
        hstr, binaryTypeM_binary, seqP_some_some]
  | Varbinary n =>
    intro fuel hg hf
    cases fuel with
    | zero => exact absurd hf (by omega)
    | succ f =>
      refine ⟨.Varbinary n, ?_, rfl⟩
      show fromStrF (f + 1) ((lit "VARBINARY" ++ ['(']) ++ (natStr n ++ [')'])) = _
      have hlast := getLast_app_app (lit "VARBINARY" ++ ['(']) (natStr n) ')'
      have hstr : stringTypeM ((lit "VARBINARY" ++ ['(']) ++ (natStr n ++ [')'])) =
        none := rfl
      simp only [fromStrF_succ, notNullF_noMatch hlast (by decide), seqP_some_none,
        hstr, binaryTypeM_varbinary, seqP_some_some]
  | Bytes n =>
    intro fuel hg hf
    cases fuel with
    | zero => exact absurd hf (by omega)
    | succ f => exact ⟨.Bytes maxLen, rfl, rfl⟩
  | Decimal p q =>
    intro fuel hg hf
    cases fuel with
    | zero => exact absurd hf (by omega)
    | succ f =>
      refine ⟨.Decimal p q, ?_, rfl⟩
      rw [rep_Decimal_shape]
      have hlast : (lit "DECIMAL" ++
          '(' :: ((natStr p ++ ',' :: ' ' :: natStr q) ++ [')'])).getLast? =
          some ')' := by
        rw [getLast_append_ne (List.cons_ne_nil _ _),
          show ('(' :: ((natStr p ++ ',' :: ' ' :: natStr q) ++ [')']) : Chars) =
            ('(' :: (natStr p ++ ',' :: ' ' :: natStr q)) ++ [')'] from rfl]
        exact List.getLast?_concat _
      have hstr : stringTypeM (lit "DECIMAL" ++
          '(' :: ((natStr p ++ ',' :: ' ' :: natStr q) ++ [')'])) = none := rfl
      have hbin : binaryTypeM (lit "DECIMAL" ++
          '(' :: ((natStr p ++ ',' :: ' ' :: natStr q) ++ [')'])) = none := rfl
      simp only [fromStrF_succ, notNullF_noMatch hlast (by decide), seqP_some_none,
        hstr, hbin, numericTypeM_decimal, seqP_some_some]
  | Dec p q =>
    intro fuel hg hf
    cases fuel with
    | zero => exact absurd hf (by omega)
    | succ f =>
      refine ⟨.Dec p q, ?_, rfl⟩
      rw [rep_Dec_shape]
      have hlast : (lit "DEC" ++
          '(' :: ((natStr p ++ ',' :: ' ' :: natStr q) ++ [')'])).getLast? =
          some ')' := by
        rw [getLast_append_ne (List.cons_ne_nil _ _),
          show ('(' :: ((natStr p ++ ',' :: ' ' :: natStr q) ++ [')']) : Chars) =
            ('(' :: (natStr p ++ ',' :: ' ' :: natStr q)) ++ [')'] from rfl]
        exact List.getLast?_concat _
      have hstr : stringTypeM (lit "DEC" ++
          '(' :: ((natStr p ++ ',' :: ' ' :: natStr q) ++ [')'])) = none := rfl
      have hbin : binaryTypeM (lit "DEC" ++
          '(' :: ((natStr p ++ ',' :: ' ' :: natStr q) ++ [')'])) = none := rfl
      simp only [fromStrF_succ, notNullF_noMatch hlast (by decide), seqP_some_none,
        hstr, hbin, numericTypeM_dec, seqP_some_some]
  | Numeric p q =>
    intro fuel hg hf
    cases fuel with
    | zero => exact absurd hf (by omega)
    | succ f =>
      refine ⟨.Numeric p q, ?_, rfl⟩
      rw [rep_Numeric_shape]
      have hlast : (lit "NUMERIC" ++
          '(' :: ((natStr p ++ ',' :: ' ' :: natStr q) ++ [')'])).getLast? =
          some ')' := by
        rw [getLast_append_ne (List.cons_ne_nil _ _),
          show ('(' :: ((natStr p ++ ',' :: ' ' :: natStr q) ++ [')']) : Chars) =
            ('(' :: (natStr p ++ ',' :: ' ' :: natStr q)) ++ [')'] from rfl]
        exact List.getLast?_concat _
      have hstr : stringTypeM (lit "NUMERIC" ++
          '(' :: ((natStr p ++ ',' :: ' ' :: natStr q) ++ [')'])) = none := rfl
      have hbin : binaryTypeM (lit "NUMERIC" ++
          '(' :: ((natStr p ++ ',' :: ' ' :: natStr q) ++ [')'])) = none := rfl
      simp only [fromStrF_succ, notNullF_noMatch hlast (by decide), seqP_some_none,
        hstr, hbin, numericTypeM_numeric, seqP_some_some]
  | TinyInt =>
    intro fuel hg hf
    cases fuel with
    | zero => exact absurd hf (by omega)
    | succ f => exact ⟨.TinyInt, rfl, rfl⟩
  | SmallInt =>
    intro fuel hg hf
    cases fuel with
    | zero => exact absurd hf (by omega)
    | succ f => exact ⟨.SmallInt, rfl, rfl⟩
  | Int =>
    intro fuel hg hf
    cases fuel with
    | zero => exact absurd hf (by omega)
    | succ f => exact ⟨.Int, rfl, rfl⟩
  | BigInt =>
    intro fuel hg hf
    cases fuel with
    | zero => exact absurd hf (by omega)
    | succ f => exact ⟨.BigInt, rfl, rfl⟩
  | Float =>
    intro fuel hg hf
    cases fuel with
    | zero => exact absurd hf (by omega)
    | succ f => exact ⟨.Float, rfl, rfl⟩
  | Double =>
    intro fuel hg hf
    cases fuel with
    | zero => exact absurd hf (by omega)
    | succ f => exact ⟨.Double, rfl, rfl⟩
  | Date =>
    intro fuel hg hf
    cases fuel with
    | zero => exact absurd hf (by omega)
    | succ f => exact ⟨.Date, rfl, rfl⟩
  | Time n =>
    intro fuel hg hf
    cases fuel with
    | zero => exact absurd hf (by omega)
    | succ f =>
      refine ⟨.Time n, ?_, rfl⟩
      show fromStrF (f + 1) ((lit "TIME" ++ ['(']) ++ (natStr n ++ [')'])) = _
      have hlast := getLast_app_app (lit "TIME" ++ ['(']) (natStr n) ')'
      have hstr : stringTypeM ((lit "TIME" ++ ['(']) ++ (natStr n ++ [')'])) =
        none := rfl
      have hbin : binaryTypeM ((lit "TIME" ++ ['(']) ++ (natStr n ++ [')'])) =
        none := rfl
      have hnum : numericTypeM ((lit "TIME" ++ ['(']) ++ (natStr n ++ [')'])) =
        none := rfl
      simp only [fromStrF_succ, notNullF_noMatch hlast (by decide), seqP_some_none,
        hstr, hbin, hnum, dateTimeTypeM_time, seqP_some_some]
  | Timestamp p tz =>
    intro fuel hg hf
    cases fuel with
    | zero => exact absurd hf (by omega)
    | succ f =>
      refine ⟨.Timestamp p tz, ?_, rfl⟩
      cases tz with
      | true =>
        rw [rep_Timestamp_with]
        have hlast : (lit "TIMESTAMP(" ++
            (natStr p ++ ')' :: lit " WITH TIME ZONE")).getLast? = some 'E' := by
          rw [getLast_append_ne (by simp), getLast_append_ne (List.cons_ne_nil _ _)]
          decide
        have hstr : stringTypeM (lit "TIMESTAMP(" ++
          (natStr p ++ ')' :: lit " WITH TIME ZONE")) = none := rfl
        have hbin : binaryTypeM (lit "TIMESTAMP(" ++
          (natStr p ++ ')' :: lit " WITH TIME ZONE")) = none := rfl
        have hnum : numericTypeM (lit "TIMESTAMP(" ++
          (natStr p ++ ')' :: lit " WITH TIME ZONE")) = none := rfl
        simp only [fromStrF_succ, notNullF_noMatch hlast (by decide), seqP_some_none,
          hstr, hbin, hnum, dateTimeTypeM_ts_with, seqP_some_some]
      | false =>
        rw [rep_Timestamp_without]
        have hlast : (lit "TIMESTAMP(" ++
            (natStr p ++ ')' :: lit " WITHOUT TIME ZONE")).getLast? = some 'E' := by
          rw [getLast_append_ne (by simp), getLast_append_ne (List.cons_ne_nil _ _)]
          decide
        have hstr : stringTypeM (lit "TIMESTAMP(" ++
          (natStr p ++ ')' :: lit " WITHOUT TIME ZONE")) = none := rfl
        have hbin : binaryTypeM (lit "TIMESTAMP(" ++
          (natStr p ++ ')' :: lit " WITHOUT TIME ZONE")) = none := rfl
        have hnum : numericTypeM (lit "TIMESTAMP(" ++
          (natStr p ++ ')' :: lit " WITHOUT TIME ZONE")) = none := rfl
        simp only [fromStrF_succ, notNullF_noMatch hlast (by decide), seqP_some_none,
          hstr, hbin, hnum, dateTimeTypeM_ts_without, seqP_some_some]
  | TimestampLocal n =>
    intro fuel hg hf
    cases fuel with
    | zero => exact absurd hf (by omega)
    | succ f =>
      refine ⟨.TimestampLocal n, ?_, rfl⟩
      show fromStrF (f + 1) ((lit "TIMESTAMP_LTZ" ++ ['(']) ++ (natStr n ++ [')'])) = _
      have hlast := getLast_app_app (lit "TIMESTAMP_LTZ" ++ ['(']) (natStr n) ')'
      have hstr : stringTypeM ((lit "TIMESTAMP_LTZ" ++ ['(']) ++ (natStr n ++ [')'])) =
        none := rfl
      have hbin : binaryTypeM ((lit "TIMESTAMP_LTZ" ++ ['(']) ++ (natStr n ++ [')'])) =
        none := rfl
      have hnum : numericTypeM ((lit "TIMESTAMP_LTZ" ++ ['(']) ++ (natStr n ++ [')'])) =
        none := rfl
      simp only [fromStrF_succ, notNullF_noMatch hlast (by decide), seqP_some_none,
        hstr, hbin, hnum, dateTimeTypeM_ltz, seqP_some_some]
  | Array x ih =>
    intro fuel hg hf
    cases fuel with
    | zero => exact absurd hf (by omega)
    | succ f =>
      have hg' : goodNode x = true := hg
      have hlen : (rep x).length < f := by
        have h7 : (rep (.Array x)).length = (rep x).length + 7 := by
          show (lit "ARRAY<" ++ (rep x ++ ['>'])).length = _
          rw [List.length_append, List.length_append,
            show (lit "ARRAY<").length = 6 from rfl,
            show (['>'] : Chars).length = 1 from rfl]
          omega
        omega
      obtain ⟨t', ht', hrep⟩ := ih f hg' hlen
      refine ⟨.Array t', ?_, ?_⟩
      · show fromStrF (f + 1) (lit "ARRAY<" ++ (rep x ++ ['>'])) = _
        have hlast := getLast_app_app (lit "ARRAY<") (rep x) '>'
        have hstr : stringTypeM (lit "ARRAY<" ++ (rep x ++ ['>'])) = none := rfl
        have hbin : binaryTypeM (lit "ARRAY<" ++ (rep x ++ ['>'])) = none := rfl
        have hnum : numericTypeM (lit "ARRAY<" ++ (rep x ++ ['>'])) = none := rfl
        have hdt : dateTimeTypeM (lit "ARRAY<" ++ (rep x ++ ['>'])) = none := rfl
        simp only [fromStrF_succ, notNullF_noMatch hlast (by decide), seqP_some_none,
          hstr, hbin, hnum, hdt, compoundF, arrayF_app (rep_noNl x) ht',
          seqP_some_some]
      · show lit "ARRAY<" ++ (rep t' ++ ['>']) = lit "ARRAY<" ++ (rep x ++ ['>'])
        rw [hrep]
  | TArray x ih =>
    intro fuel hg hf
    cases fuel with
    | zero => exact absurd hf (by omega)
    | succ f =>
      have hg' : goodNode x = true := hg
      have hlen : (rep x).length < f := by
        have h6 : (rep (.TArray x)).length = (rep x).length + 6 := by
          show (rep x ++ lit " ARRAY").length = _
          rw [List.length_append, show (lit " ARRAY").length = 6 from rfl]
        omega
      obtain ⟨t', ht', hrep⟩ := ih f hg' hlen
      refine ⟨.TArray t', ?_, ?_⟩
      · show fromStrF (f + 1) (rep x ++ lit " ARRAY") = _
        have hlast : (rep x ++ lit " ARRAY").getLast? = some 'Y' := by
          rw [getLast_append_ne (by decide)]
          decide
        simp only [fromStrF_succ, notNullF_noMatch hlast (by decide), seqP_some_none,
          stringTypeM_none_of_getLast hlast (by decide) (by decide),
          binaryTypeM_none_of_getLast hlast (by decide) (by decide),
          numericTypeM_none_of_getLast hlast (by decide) (by decide) (by decide)
            (by decide) (by decide),
          dateTimeTypeM_none_of_getLast hlast (by decide) (by decide),
          compoundF, arrayF_noMatch_last hlast (by decide),
          tarrayF_app (rep_noNl x) ht', seqP_some_some]
      · show rep t' ++ lit " ARRAY" = rep x ++ lit " ARRAY"
        rw [hrep]
  | Map k v ihk ihv =>
    intro fuel hg hf
    cases fuel with
    | zero => exact absurd hf (by omega)
    | succ f =>
      have hg3 : goodNode k = true ∧ goodNode v = true ∧
          (lastSplit (rep v)).isNone = true := by
        have : (goodNode k && goodNode v && (lastSplit (rep v)).isNone) = true := hg
        simp only [Bool.and_eq_true] at this
        exact ⟨this.1.1, this.1.2, this.2⟩
      have hsplit : lastSplit (rep v) = none := by
        have := hg3.2.2
        simpa [Option.isNone_iff_eq_none] using this
      have hlen : (rep (.Map k v)).length =
          (rep k).length + (rep v).length + 7 := by
        rw [rep_Map_shape, List.length_append, List.length_append,
          List.length_append, List.length_cons, List.length_cons,
          show (lit "MAP<").length = 4 from rfl,
          show (['>'] : Chars).length = 1 from rfl]
        omega
      have hlk : (rep k).length < f := by omega
      have hlv : (rep v).length < f := by omega
      obtain ⟨kt, hkt, hrepk⟩ := ihk f hg3.1 hlk
      obtain ⟨vt, hvt, hrepv⟩ := ihv f hg3.2.1 hlv
      refine ⟨.Map kt vt, ?_, ?_⟩
      · rw [rep_Map_shape]
        have hlast := getLast_app_app (lit "MAP<") (rep k ++ ',' :: ' ' :: rep v) '>'
        have hnl : noNl (rep k ++ ',' :: ' ' :: rep v) = true := by
          rw [noNl_append, rep_noNl k, noNl_cons, noNl_cons, rep_noNl v]
          decide
        have hstr : stringTypeM (lit "MAP<" ++
          ((rep k ++ ',' :: ' ' :: rep v) ++ ['>'])) = none := rfl
        have hbin : binaryTypeM (lit "MAP<" ++
          ((rep k ++ ',' :: ' ' :: rep v) ++ ['>'])) = none := rfl
        have hnum : numericTypeM (lit "MAP<" ++
          ((rep k ++ ',' :: ' ' :: rep v) ++ ['>'])) = none := rfl
        have hdt : dateTimeTypeM (lit "MAP<" ++
          ((rep k ++ ',' :: ' ' :: rep v) ++ ['>'])) = none := rfl
        have harr : arrayF (fromStrF f) (lit "MAP<" ++
          ((rep k ++ ',' :: ' ' :: rep v) ++ ['>'])) = some none := rfl
        simp only [fromStrF_succ, notNullF_noMatch hlast (by decide), seqP_some_none,
          hstr, hbin, hnum, hdt, compoundF, harr,
          tarrayF_noMatch hlast (by decide),
          mapF_app hnl hsplit hkt hvt, seqP_some_some]
      · rw [rep_Map_shape kt vt, rep_Map_shape k v, hrepk, hrepv]
  | PrimaryKey x ih =>
    intro fuel hg hf
    exact absurd hg (by simp [goodNode])
  | Boolean =>
    intro fuel hg hf
    cases fuel with
    | zero => exact absurd hf (by omega)
    | succ f => exact ⟨.Boolean, rfl, rfl⟩
  | Interval =>
    intro fuel hg hf
    cases fuel with
    | zero => exact absurd hf (by omega)
    | succ f => exact ⟨.Interval, rfl, rfl⟩
  | Multiset =>
    intro fuel hg hf
    cases fuel with
    | zero => exact absurd hf (by omega)
    | succ f => exact ⟨.Multiset, rfl, rfl⟩

/-- Canonical-form round trip at the `from_str` entry point. -/
theorem roundTrip (t : FieldType) (hg : goodNode t = true) :
    ∃ t' : FieldType, fromStr (rep t) = some t' ∧ rep t' = rep t := by
  obtain ⟨t', ht', hr⟩ := roundTripF t ((rep t).length + 1) hg (by omega)
  exact ⟨t', by rw [fromStr, ht']; rfl, hr⟩

/-- C1: the claim states that `FieldType` hashing is consistent with
equality.  It is not: `__eq__` makes `Decimal(10, 0)` equal `Dec(10, 0)`
and `ARRAY<DECIMAL>` equal `DECIMAL ARRAY`, while `__hash__` hashes
`repr(self)` — and those equal nodes feed DIFFERENT strings to `hash`, so
their Python hashes differ (violating Python's own hash/eq contract, which
the spec restates).  This theorem exhibits equal nodes with distinct hash
inputs. -/
theorem c1_hash_inconsistent_on_equal_nodes :
    pyEq (.Decimal 10 0) (.Dec 10 0) = true ∧
    hashInput (.Decimal 10 0) ≠ hashInput (.Dec 10 0) ∧
    pyEq (.Array (.Decimal 10 0)) (.TArray (.Decimal 10 0)) = true ∧
    hashInput (.Array (.Decimal 10 0)) ≠ hashInput (.TArray (.Decimal 10 0)) ∧
    pyEq (.String maxLen) (.Varchar maxLen) = true ∧
    hashInput (.String maxLen) ≠ hashInput (.Varchar maxLen) := by
  decide

/-- C2: equality of parsed nodes follows the synonym model —
`DECIMAL`/`DEC`/`NUMERIC` are pairwise equal, `STRING` equals
`VARCHAR(2147483647)` but not `VARCHAR(100)`, and compound equality is
recursive and spelling-independent. -/
theorem c2_synonym_equality_of_parsed_types :
    peq "DECIMAL" "DEC" = true ∧ peq "DEC" "DECIMAL" = true ∧
    peq "DECIMAL" "NUMERIC" = true ∧ peq "NUMERIC" "DECIMAL" = true ∧
    peq "DEC" "NUMERIC" = true ∧ peq "NUMERIC" "DEC" = true ∧
    peq "STRING" "VARCHAR(2147483647)" = true ∧
    peq "VARCHAR(2147483647)" "STRING" = true ∧
    (fromStr (lit "VARCHAR(100)")).isSome = true ∧
    (fromStr (lit "STRING")).isSome = true ∧
    peq "VARCHAR(100)" "STRING" = false ∧
    peq "ARRAY<DECIMAL>" "DECIMAL ARRAY" = true ∧
    peq "DECIMAL ARRAY" "ARRAY<DECIMAL>" = true ∧
    peq "ARRAY<DECIMAL>" "ARRAY<NUMERIC>" = true ∧
    peq "DECIMAL ARRAY" "ARRAY<NUMERIC>" = true ∧
    peq "ARRAY<NUMERIC>" "ARRAY<DECIMAL>" = true ∧
    peq "ARRAY<NUMERIC>" "DECIMAL ARRAY" = true := by
  decide

/-- C4 counterexample: `"MAP<INT, DECIMAL(10, 0)>"` IS the canonical
rendering of the `MAP` grammar rule applied to `INT` and `DECIMAL(10, 0)`,
yet `from_str` returns `None` on it: the greedy key group of
`r"MAP<(.*), (.*)>"` splits at the rightmost `", "`, which here lies inside
`DECIMAL(10, 0)`, and the resulting key text `"INT, DECIMAL(10"` parses as
no rule. -/
theorem c4_counterexample :
    rep (.Map .Int (.Decimal 10 0)) = lit "MAP<INT, DECIMAL(10, 0)>" ∧
    fromStr (lit "MAP<INT, DECIMAL(10, 0)>") = none := by
  refine ⟨by decide, by decide⟩

/-- C4 (amended): parse/render round-trip on canonical forms whose `MAP`
values render without the substring `", "`: for the canonical rendering of
any such grammar node, `from_str` succeeds and the parsed node renders back
to the original text. -/
theorem c4_canonical_roundtrip (t : FieldType) (hg : goodNode t = true) :
    ∃ t' : FieldType, fromStr (rep t) = some t' ∧ rep t' = rep t :=
  roundTrip t hg

theorem c4_canonical_roundtrip_witness :
    goodNode (.NotNull (.Map (.Decimal 10 2) (.Array (.Timestamp 3 true)))) = true ∧
    ∃ t' : FieldType,
      fromStr (rep (.NotNull (.Map (.Decimal 10 2) (.Array (.Timestamp 3 true))))) =
        some t' ∧
      rep t' = rep (.NotNull (.Map (.Decimal 10 2) (.Array (.Timestamp 3 true)))) :=
  ⟨by decide, c4_canonical_roundtrip _ (by decide)⟩

/-- C5: `from_str` is total — fuel `s.length + 1` (every recursive call is
on a strictly shorter string) never runs out, so on EVERY input string the
recursion terminates with either a node or "no match", and `fromStr`
returns exactly that result. -/
theorem c5_parse_total (s : List Char) :
    ∃ r : Option FieldType, fromStrF (s.length + 1) s = some r ∧ fromStr s = r := by
  have h := fromStrF_isSome (s.length + 1) s (by omega)
  cases hf : fromStrF (s.length + 1) s with
  | none => rw [hf] at h; simp at h
  | some r =>
    refine ⟨r, rfl, ?_⟩
    unfold fromStr
    rw [hf]
    rfl

/-- C3 counterexample: a remote state on which `has_changed` reports
"unchanged" (`False`) although the local and remote schemas differ under
the serialized-text (§4.4) equality the claim names: the local field type
is `STRING`, the remote one `VARCHAR(2147483647)` — canonically equal, so
the code's field-list comparison passes, but their rendered texts differ,
so the claim's "returns false iff ... equal under §4.4 equality" is false
here. -/
theorem c3_counterexample :
    has_changed (lit "SELECT 1") (lit "t") [⟨lit "y", lit "STRING"⟩]
      (some ⟨wrap_as_pipeline (lit "t") (lit "SELECT 1")⟩)
      (some ⟨none, [⟨lit "y", lit "VARCHAR(2147483647)"⟩]⟩) none = .ok false ∧
    schema_from_json [⟨lit "y", lit "STRING"⟩] =
      .ok [⟨lit "y", .String maxLen⟩] ∧
    schema_from_json [⟨lit "y", lit "VARCHAR(2147483647)"⟩] =
      .ok [⟨lit "y", .Varchar maxLen⟩] ∧
    serializedFieldsEq [⟨lit "y", .Varchar maxLen⟩] [⟨lit "y", .String maxLen⟩] =
      false := by
  decide

/-- C3 (amended): when the remote pipeline and stream exist and every type
text parses, `has_changed` returns `False` iff the wrapped local SQL equals
the stored SQL verbatim, the local watermark equals the stored watermark,
and the schemas are equal element-wise under the FIELD model's equality
(equal names, canonically equal types) — not the serialized-text §4.4
equality; any single difference makes it return `True`. -/
theorem c3_has_changed_iff (sql relationName : Chars)
    (localFields : List JsonField) (p : PipeInfo) (st : StreamInfo)
    (watermark : Option Chars) (ls rs : List SchemaField)
    (hl : schema_from_json localFields = .ok ls)
    (hr : schema_from_json st.schema = .ok rs) :
    has_changed sql relationName localFields (some p) (some st) watermark =
        .ok false ↔
      (p.sql = wrap_as_pipeline relationName sql ∧ st.watermark = watermark ∧
        listFieldEq rs ls = true) := by
  simp only [has_changed, hl, hr]
  by_cases h1 : p.sql = wrap_as_pipeline relationName sql
  · rw [if_neg (by simpa using h1)]
    by_cases h2 : st.watermark = watermark
    · rw [if_neg (by simpa using h2)]
      by_cases h3 : listFieldEq rs ls = true
      · rw [if_neg (by simpa using h3)]
        simp [h1, h2, h3]
      · rw [if_pos (by simpa using h3)]
        simp [h1, h2, h3]
    · rw [if_pos (by simpa using h2)]
      simp [h2]
  · rw [if_pos (by simpa using h1)]
    simp [h1]

theorem c3_has_changed_iff_witness :
    (has_changed (lit "SELECT 1") (lit "t") [⟨lit "y", lit "INT"⟩]
      (some ⟨wrap_as_pipeline (lit "t") (lit "SELECT 1")⟩)
      (some ⟨none, [⟨lit "y", lit "INT"⟩]⟩) none = .ok false ↔
      ((⟨wrap_as_pipeline (lit "t") (lit "SELECT 1")⟩ : PipeInfo).sql =
          wrap_as_pipeline (lit "t") (lit "SELECT 1") ∧
        (⟨none, [⟨lit "y", lit "INT"⟩]⟩ : StreamInfo).watermark = none ∧
        listFieldEq [⟨lit "y", .Int⟩] [⟨lit "y", .Int⟩] = true)) :=
  c3_has_changed_iff (lit "SELECT 1") (lit "t") [⟨lit "y", lit "INT"⟩]
    ⟨wrap_as_pipeline (lit "t") (lit "SELECT 1")⟩ ⟨none, [⟨lit "y", lit "INT"⟩]⟩
    none [⟨lit "y", .Int⟩] [⟨lit "y", .Int⟩] (by decide) (by decide)

/-- C8: the declarative (apply-based) reconciliation variant reduces the
dry-run apply endpoint's per-resource results to
`any(result != "unchanged")`: all-"unchanged" yields unchanged (`false`),
and any "created" or "updated" result yields changed (`true`). -/
theorem c8_apply_reduction (results : List Chars) :
    ((∀ r ∈ results, r = lit "unchanged") → applyHasChanged results = false) ∧
    ((∃ r ∈ results, r = lit "created" ∨ r = lit "updated") →
      applyHasChanged results = true) := by
  constructor
  · intro h
    simp only [applyHasChanged, List.any_eq_false, decide_eq_true_eq]
    intro r hr
    simp [h r hr]
  · rintro ⟨r, hr, hcu⟩
    simp only [applyHasChanged, List.any_eq_true, decide_eq_true_eq]
    refine ⟨r, hr, ?_⟩
    rcases hcu with h | h <;> rw [h] <;> decide

theorem c8_apply_reduction_witness :
    ((∀ r ∈ [lit "unchanged", lit "unchanged"], r = lit "unchanged") →
      applyHasChanged [lit "unchanged", lit "unchanged"] = false) ∧
    ((∃ r ∈ [lit "unchanged", lit "updated"],
        r = lit "created" ∨ r = lit "updated") →
      applyHasChanged [lit "unchanged", lit "updated"] = true) :=
  ⟨(c8_apply_reduction [lit "unchanged", lit "unchanged"]).1,
   (c8_apply_reduction [lit "unchanged", lit "updated"]).2⟩

/-- C9: `SchemaV2` equality is decided entirely by the serialized JSON text
of `to_dict()` (via its hash), with each field's type as its raw rendered
text; consequently two schemas whose fields are pairwise equal as
`SchemaField` values can compare unequal as schemas — here `DEC(10, 0)`
versus `DECIMAL(10, 0)`. -/
theorem c9_schema_eq_serialized_text :
    (∀ a b : SchemaV2, schemaV2Eq a b = true ↔ dump (to_dict a) = dump (to_dict b)) ∧
    fieldV2Eq (.physical (lit "f") (.Dec 10 0))
      (.physical (lit "f") (.Decimal 10 0)) = true ∧
    schemaV2Eq ⟨[.physical (lit "f") (.Dec 10 0)], [], ⟨some []⟩⟩
      ⟨[.physical (lit "f") (.Decimal 10 0)], [], ⟨some []⟩⟩ = false := by
  refine ⟨fun a b => ?_, by decide, by decide⟩
  simp [schemaV2Eq]

/-- C10: when no pipeline or no stream with the relation's name exists
remotely, `has_changed` returns `True` without performing the SQL,
watermark or schema comparisons (the pipeline's stored SQL, the stream's
watermark and schema, and the comparison watermark are arbitrary here). -/
theorem c10_missing_remote_returns_true (sql relationName : Chars)
    (localFields : List JsonField) (ls : List SchemaField)
    (hl : schema_from_json localFields = .ok ls) (p : PipeInfo)
    (stream : Option StreamInfo) (watermark : Option Chars) :
    has_changed sql relationName localFields none stream watermark = .ok true ∧
    has_changed sql relationName localFields (some p) none watermark = .ok true := by
  constructor <;> simp [has_changed, hl]

theorem c10_missing_remote_returns_true_witness :
    has_changed (lit "SELECT 1") (lit "t") [⟨lit "y", lit "INT"⟩] none
      (some ⟨some (lit "wm"), []⟩) (some (lit "other")) = .ok true ∧
    has_changed (lit "SELECT 1") (lit "t") [⟨lit "y", lit "INT"⟩]
      (some ⟨lit "unrelated sql"⟩) none (some (lit "other")) = .ok true :=
  c10_missing_remote_returns_true (lit "SELECT 1") (lit "t")
    [⟨lit "y", lit "INT"⟩] [⟨lit "y", .Int⟩] (by decide) ⟨lit "unrelated sql"⟩
    (some ⟨some (lit "wm"), []⟩) (some (lit "other"))

/-! ### Supporting lemmas for the `from_json` claims (C6, C7) -/

theorem factory_ok_iff (f : JMap) :
    (∃ sf, schema_field_factory f = .ok sf) ↔ entryWellFormed f = true := by
  unfold schema_field_factory entryWellFormed
  cases hk : jget f (lit "kind") with
  | none => simp
  | some kind =>
    simp only []
    by_cases h1 : kind = lit "physical"
    · rw [if_pos h1, if_pos h1]
      cases hn : jget f (lit "name") with
      | none => simp
      | some name =>
        cases ht : jget f (lit "type") with
        | none => simp
        | some ty =>
          cases hp : fromStr ty with
          | none => simp [hp]
          | some t => simp [hp]
    · rw [if_neg h1, if_neg h1]
      by_cases h2 : kind = lit "metadata"
      · rw [if_pos h2, if_pos h2]
        cases hn : jget f (lit "name") with
        | none => simp
        | some name =>
          cases hk2 : jget f (lit "key") with
          | none => simp
          | some key =>
            cases ht : jget f (lit "type") with
            | none => simp
            | some ty =>
              cases hp : fromStr ty with
              | none => simp [hp]
              | some t => simp [hp]
      · rw [if_neg h2, if_neg h2]
        by_cases h3 : kind = lit "computed"
        · rw [if_pos h3, if_pos h3]
          cases hn : jget f (lit "name") with
          | none => simp
          | some name =>
            cases he : jget f (lit "expression") with
            | none => simp
            | some e => simp
        · rw [if_neg h3, if_neg h3]
          simp

theorem wm_ok_iff (w : JMap) :
    (∃ x, watermark_factory w = .ok x) ↔ wmWellFormed w = true := by
  unfold watermark_factory wmWellFormed
  cases hn : jget w (lit "name") with
  | none => simp
  | some n =>
    cases he : jget w (lit "expression") with
    | none => simp
    | some e => simp

theorem mapExcept_ok_iff {α β : Type} (g : α → Except Chars β)
    (pred : α → Bool) (hiff : ∀ x, (∃ y, g x = .ok y) ↔ pred x = true) :
    ∀ l : List α, (∃ ys, mapExcept g l = .ok ys) ↔ l.all pred = true := by
  intro l
  induction l with
  | nil => simp [mapExcept]
  | cons x xs ih =>
    rw [List.all_cons, Bool.and_eq_true]
    constructor
    · rintro ⟨ys, hys⟩
      simp only [mapExcept] at hys
      cases hg : g x with
      | error e => rw [hg] at hys; simp at hys
      | ok y =>
        rw [hg] at hys
        cases hm : mapExcept g xs with
        | error e => rw [hm] at hys; simp at hys
        | ok zs =>
          exact ⟨(hiff x).mp ⟨y, hg⟩, ih.mp ⟨zs, hm⟩⟩
    · rintro ⟨hx, hxs⟩
      obtain ⟨y, hy⟩ := (hiff x).mpr hx
      obtain ⟨zs, hzs⟩ := ih.mpr hxs
      exact ⟨y :: zs, by simp [mapExcept, hy, hzs]⟩

theorem factory_fieldToMap (f : SchemaFieldV2) (h : fieldReparses f = true) :
    ∃ f', schema_field_factory (fieldToMap f) = .ok f' ∧
      fieldToMap f' = fieldToMap f := by
  cases f with
  | physical n t =>
    simp only [fieldReparses, typeReparses] at h
    cases hp : fromStr (rep t) with
    | none => rw [hp] at h; simp at h
    | some u =>
      rw [hp] at h
      have hr : rep u = rep t := by simpa using h
      refine ⟨.physical n u, ?_, ?_⟩
      · have e1 : jget (fieldToMap (.physical n t)) (lit "kind") =
          some (lit "physical") := rfl
        have e2 : jget (fieldToMap (.physical n t)) (lit "name") = some n := rfl
        have e3 : jget (fieldToMap (.physical n t)) (lit "type") =
          some (rep t) := rfl
        simp [schema_field_factory, e1, e2, e3, hp]
      · simp [fieldToMap, hr]
  | metadata n k t =>
    simp only [fieldReparses, typeReparses] at h
    cases hp : fromStr (rep t) with
    | none => rw [hp] at h; simp at h
    | some u =>
      rw [hp] at h
      have hr : rep u = rep t := by simpa using h
      refine ⟨.metadata n k u, ?_, ?_⟩
      · have e1 : jget (fieldToMap (.metadata n k t)) (lit "kind") =
          some (lit "metadata") := rfl
        have e2 : jget (fieldToMap (.metadata n k t)) (lit "name") = some n := rfl
        have e3 : jget (fieldToMap (.metadata n k t)) (lit "key") = some k := rfl
        have e4 : jget (fieldToMap (.metadata n k t)) (lit "type") =
          some (rep t) := rfl
        simp [schema_field_factory, e1, e2, e3, e4, hp]
        decide
      · simp [fieldToMap, hr]
  | computed n e => exact ⟨.computed n e, rfl, rfl⟩

theorem mapExcept_roundtrip {α β : Type} (g : β → Except Chars α) (enc : α → β) :
    ∀ l : List α, (∀ x ∈ l, ∃ y, g (enc x) = .ok y ∧ enc y = enc x) →
      ∃ l', mapExcept g (l.map enc) = .ok l' ∧ l'.map enc = l.map enc := by
  intro l
  induction l with
  | nil => exact fun _ => ⟨[], rfl, rfl⟩
  | cons x xs ih =>
    intro h
    obtain ⟨y, hy, hey⟩ := h x (by simp)
    obtain ⟨l', hl', hel'⟩ := ih (fun z hz => h z (by simp [hz]))
    refine ⟨y :: l', ?_, ?_⟩
    · simp [mapExcept, hy, hl']
    · simp [hey, hel']

theorem mapExcept_wm (l : List Watermark) :
    mapExcept watermark_factory (l.map wmToMap) = .ok l := by
  induction l with
  | nil => rfl
  | cons w ws ih => simp [mapExcept, ih]; rfl

/-- C7 counterexample: a field entry with `kind` present and `"physical"`
and `name` present still makes `from_json` fail (the `type` key is missing,
`field["type"]` raises `KeyError`), so "fails ... only when a present field
entry is malformed (missing kind or name) or declares an unknown kind" is
false as stated. -/
theorem c7_counterexample :
    from_json ⟨some [[(lit "kind", lit "physical"), (lit "name", lit "f")]],
      none, none⟩ = .error (lit "KeyError: type") ∧
    jget [(lit "kind", lit "physical"), (lit "name", lit "f")] (lit "kind") =
      some (lit "physical") ∧
    jget [(lit "kind", lit "physical"), (lit "name", lit "f")] (lit "name") =
      some (lit "f") := by
  refine ⟨by decide, by decide, by decide⟩

/-- C7 (amended): `from_json` tolerates missing `fields` / `watermarks` /
`constraints` keys — the first two default to empty, a missing
`constraints` key leaves `primary_key` as `None` (null, not empty) — and it
succeeds iff every present field entry is well-formed (known kind, every
key that kind requires present, type text parseable) and every watermark
entry carries `name` and `expression`; equivalently, it fails exactly when
one of them is malformed in this sense. -/
theorem c7_from_json_characterization (j : SchemaJson) :
    (from_json ⟨none, none, none⟩ = .ok ⟨[], [], ⟨none⟩⟩) ∧
    ((∃ sch, from_json j = .ok sch) ↔
      ((j.fields.getD []).all entryWellFormed = true ∧
        (j.watermarks.getD []).all wmWellFormed = true)) := by
  refine ⟨by decide, ?_⟩
  unfold from_json
  cases hf : mapExcept schema_field_factory (j.fields.getD []) with
  | error e =>
    have hnall : ¬ (j.fields.getD []).all entryWellFormed = true := by
      intro hall
      obtain ⟨ys, hys⟩ :=
        (mapExcept_ok_iff schema_field_factory entryWellFormed factory_ok_iff
          (j.fields.getD [])).mpr hall
      rw [hf] at hys
      exact Except.noConfusion hys
    simp [hnall]
  | ok fs =>
    have h1 : (j.fields.getD []).all entryWellFormed = true :=
      (mapExcept_ok_iff schema_field_factory entryWellFormed factory_ok_iff
        (j.fields.getD [])).mp ⟨fs, hf⟩
    cases hw : mapExcept watermark_factory (j.watermarks.getD []) with
    | error e =>
      have hnall : ¬ (j.watermarks.getD []).all wmWellFormed = true := by
        intro hall
        obtain ⟨ys, hys⟩ :=
          (mapExcept_ok_iff watermark_factory wmWellFormed wm_ok_iff
            (j.watermarks.getD [])).mpr hall
        rw [hw] at hys
        exact Except.noConfusion hys
      simp [h1, hnall]
    | ok ws =>
      have h2 : (j.watermarks.getD []).all wmWellFormed = true :=
        (mapExcept_ok_iff watermark_factory wmWellFormed wm_ok_iff
          (j.watermarks.getD [])).mp ⟨ws, hw⟩
      simp [h1, h2]

/-- C6 counterexample: the claim fails for a schema whose field type is
itself the result of a successful parse: `"MAP<INT, DEC>"` parses, but the
node renders as `"MAP<INT, DEC(10, 0)>"`, which does NOT re-parse, so
`Schema.from_json(schema.to_dict())` raises (an unrecognized-type compiler
error) instead of returning an equal schema. -/
theorem c6_counterexample :
    fromStr (lit "MAP<INT, DEC>") = some (.Map .Int (.Dec 10 0)) ∧
    from_json (to_dict_asJson
        ⟨[.physical (lit "f") (.Map .Int (.Dec 10 0))], [], ⟨some []⟩⟩) =
      .error (lit "type not recognized") := by
  refine ⟨by decide, by decide⟩

/-- C6 (amended): `Schema.from_json(schema.to_dict())` equals the original
schema (under the schema model's serialized-form equality) for every schema
whose field types render to text that re-parses to an equally rendered
node. -/
theorem c6_schema_roundtrip (s : SchemaV2)
    (h : s.fields.all fieldReparses = true) :
    ∃ s' : SchemaV2, from_json (to_dict_asJson s) = .ok s' ∧
      schemaV2Eq s' s = true := by
  rw [List.all_eq_true] at h
  obtain ⟨fs', hfs', hmap⟩ :=
    mapExcept_roundtrip schema_field_factory fieldToMap s.fields
      (fun x hx => factory_fieldToMap x (h x hx))
  refine ⟨⟨fs', s.watermarks, s.constraints⟩, ?_, ?_⟩
  · show from_json ⟨some (s.fields.map fieldToMap),
      some (s.watermarks.map wmToMap), some s.constraints.primary_key⟩ = _
    simp only [from_json, Option.getD_some, hfs', mapExcept_wm]
  · have hflds : fs'.map fieldToDict = s.fields.map fieldToDict := by
      have h1 : fs'.map fieldToDict = (fs'.map fieldToMap).map
          (fun m => JVal.obj (m.map (fun kv => (kv.1, JVal.s kv.2)))) := by
        rw [List.map_map]
        rfl
      have h2 : s.fields.map fieldToDict = (s.fields.map fieldToMap).map
          (fun m => JVal.obj (m.map (fun kv => (kv.1, JVal.s kv.2)))) := by
        rw [List.map_map]
        rfl
      rw [h1, h2, hmap]
    have hdict : to_dict ⟨fs', s.watermarks, s.constraints⟩ = to_dict s := by
      unfold to_dict
      rw [hflds]
    simp [schemaV2Eq, hdict]

theorem c6_schema_roundtrip_witness :
    (([.physical (lit "f") .Int, .computed (lit "c") (lit "1 + 1")] :
        List SchemaFieldV2).all fieldReparses) = true ∧
    ∃ s' : SchemaV2,
      from_json (to_dict_asJson
        ⟨[.physical (lit "f") .Int, .computed (lit "c") (lit "1 + 1")],
         [⟨lit "w", lit "e"⟩], ⟨some [lit "f"]⟩⟩) = .ok s' ∧
      schemaV2Eq s'
        ⟨[.physical (lit "f") .Int, .computed (lit "c") (lit "1 + 1")],
         [⟨lit "w", lit "e"⟩], ⟨some [lit "f"]⟩⟩ = true :=
  ⟨by decide, c6_schema_roundtrip _ (by decide)⟩

end DbtDecodable
